import Mathlib

/-!
# fpart file-backed bump allocator (`src/file_memory.c`)

A shallow embedding of `file_memory.c` and theorems about it.

Conventions of the embedding

* `size_t` is 64 bits wide: a `size_t` value is a natural number below `2 ^ 64`
  and every `size_t` operation of the source is reduced modulo `SIZE_MOD`.
  `sizeof(void *)` is 8, hence `FILE_MALLOC_HEADER_SIZE = 8`.
* `fnum_t` is printed with `%lld` in the source (`long long`).  Counters of that
  type (`next_chunk_index`, `ref_count`) start at 0 and are only incremented;
  they are naturals here, and a positive `max_chunks` is below `2 ^ 63`.  The
  mixed sum `next_chunk_index + needed_chunks` is an unsigned 64 bit sum.
* `FILE_MEMORY_CHUNK_SIZE` is a build-time constant that is not defined in the
  file; it is the parameter `CHUNK` of `file_malloc`.
* chunk records live in an arena `heap`; a `struct file_memory *` is an index
  into it, `NULL` is `none`, a freed slot holds `none`.
* what the operating system answers during one call is the argument `sys`.
* the file system is the list of the paths that exist.
* a failed `assert`, or the dereference of a dangling pointer, ends the run:
  the functions return `none` there.
-/

namespace FileMemory

/-- Modulus of `size_t` arithmetic. -/
def SIZE_MOD : Nat := 2 ^ 64

/-- Largest file offset (`off_t` is a signed 64 bit integer). -/
def OFF_MAX : Nat := 2 ^ 63 - 1

/-- Value of `sizeof(void *)`. -/
def PTR_WIDTH : Nat := 8

/-- Value of `sizeof(struct file_memory*)`, the macro of line 70. -/
def FILE_MALLOC_HEADER_SIZE : Nat := 8

/-- Value of `errno` after an invalid argument. -/
def EINVAL : Nat := 22

/-- Value of `errno` after an allocation failure. -/
def ENOMEM : Nat := 12

/-- Record `struct file_memory` (lines 51 to 62). -/
structure file_memory where
  path : String
  fd : Int
  size : Nat
  start_addr : Nat
  next_free_offset : Nat
  ref_count : Nat
  nextp : Option Nat
  prevp : Option Nat
deriving DecidableEq, Repr

/-- Record `struct mem_manager` (lines 74 to 80). -/
structure mem_manager where
  base_path : Option String
  currentp : Option Nat
  next_chunk_index : Nat
  max_chunks : Nat
deriving DecidableEq, Repr

/-- System calls that create or release a resource, logged in call order. -/
inductive Event where
  | created (path : String) (fd : Int)
  | mapped (addr : Nat) (size : Nat)
  | unmapped (addr : Nat) (size : Nat)
  | closed (fd : Int)
  | unlinked (path : String)
  | freed (p : Nat)
  | freed_base_path
deriving DecidableEq, Repr

/-- Whole program state: the manager `mem`, the chunk records, the header words
written into the mappings (address, chunk pointer; newest first), the file
system, `errno` and the log of system calls (oldest first). -/
structure State where
  mem : mem_manager
  heap : List (Option file_memory)
  words : List (Nat × Nat)
  fs : List String
  errno : Nat
  trace : List Event
deriving DecidableEq, Repr

/-- Answers of the operating system during one call of `file_malloc`:
whether each `malloc` succeeds, the descriptor `open` returns when the path is
free, whether `lseek` and `write` succeed, and the address `mmap` returns
(`none` is `MAP_FAILED`). -/
structure Sys where
  malloc_tmp_path : Bool
  malloc_record : Bool
  malloc_path : Bool
  open_fd : Int
  lseek_ok : Bool
  write_ok : Bool
  mmap_addr : Option Nat
deriving DecidableEq, Repr

/-- Modelled from the spec: `round_num` of `utils.h` is not in `src/`; the spec
calls it `round_up(x, m)`, the least multiple of `m` that is at least `x`.  The
result is stored in a `size_t`. -/
def round_num (x m : Nat) : Nat :=
  ((x + m - 1) / m * m) % SIZE_MOD

/-- Modelled from the spec: `get_num_digits` of `utils.h` is not in `src/`; the
spec calls it digit counting: the number of decimal digits of `n`. -/
def get_num_digits (n : Nat) : Nat :=
  (Nat.toDigits 10 n).length

/-- The record a pointer refers to (`none` for a dangling pointer). -/
def deref (heap : List (Option file_memory)) (p : Nat) : Option file_memory :=
  match heap[p]? with
  | some (some c) => some c
  | _ => none

/-- Call `open(path, O_RDWR|O_CREAT|O_EXCL, 0660)`: fails when the path exists. -/
def open_excl (sys : Sys) (fs : List String) (path : String) : Int :=
  if path ∈ fs then -1 else sys.open_fd

/-- Call `lseek(fd, off, SEEK_SET)` with the result converted to `size_t` as the
comparison of line 129 does: an offset that is negative as an `off_t` is
refused, and the error value `-1` converts to `SIZE_MOD - 1`. -/
def lseek_set (ok : Bool) (off : Nat) : Nat :=
  if ok && decide (off ≤ OFF_MAX) then off else SIZE_MOD - 1

/-- Call `unlink(path)`. -/
def unlink (fs : List String) (path : String) : List String :=
  fs.filter (fun q => decide (q ≠ path))

/-- Lines 170 to 172 of `add_file_memory`: when there is a previous record, its
`nextp` is set to the new record `p`. -/
def link_prev (heap : List (Option file_memory)) (previous : Option Nat) (p : Nat) :
    Option (List (Option file_memory)) :=
  match previous with
  | none => some heap
  | some q =>
    match deref heap q with
    | none => none
    | some d => some (heap.set q (some { d with nextp := some p }))

/-- Function `add_file_memory` (lines 86 to 180), called with
`head = &mem.currentp`.  The new record is built in place and enters the arena
only when the call succeeds; on the failure paths it is freed again. -/
def add_file_memory (sys : Sys) (s : State) (path : String) (size : Nat) :
    Option (Nat × State) :=
  if size = 0 then none
  else
    let previous := s.mem.currentp
    if !sys.malloc_record then
      some (1, { s with mem := { s.mem with currentp := none } })
    else if !sys.malloc_path then
      some (1, { s with mem := { s.mem with currentp := previous } })
    else
      let fd := open_excl sys s.fs path
      if fd < 0 then
        some (1, { s with mem := { s.mem with currentp := previous } })
      else
        let fs1 := path :: s.fs
        let tr1 := s.trace ++ [Event.created path fd]
        if lseek_set sys.lseek_ok ((size + SIZE_MOD - 1) % SIZE_MOD) ≠
            (size + SIZE_MOD - 1) % SIZE_MOD then
          some (1, { s with mem := { s.mem with currentp := previous },
                            fs := unlink fs1 path,
                            trace := tr1 ++ [Event.closed fd, Event.unlinked path] })
        else if !sys.write_ok then
          some (1, { s with mem := { s.mem with currentp := previous },
                            fs := unlink fs1 path,
                            trace := tr1 ++ [Event.closed fd, Event.unlinked path] })
        else
          match sys.mmap_addr with
          | none =>
            some (1, { s with mem := { s.mem with currentp := previous },
                              fs := unlink fs1 path,
                              trace := tr1 ++ [Event.closed fd, Event.unlinked path] })
          | some addr =>
            let p := s.heap.length
            let c : file_memory :=
              { path := path, fd := fd, size := size, start_addr := addr,
                next_free_offset := 0, ref_count := 0, nextp := none, prevp := previous }
            match link_prev s.heap previous p with
            | none => none
            | some heap1 =>
              some (0, { s with mem := { s.mem with currentp := some p },
                                heap := heap1 ++ [some c],
                                fs := fs1,
                                trace := tr1 ++ [Event.mapped addr size] })

/-- Lines 309 to 323 of `file_malloc`: write the header at the cursor of the
current chunk, advance the cursor, count the reference, return the address
after the header. -/
def file_malloc_serve (s : State) (aligned_size : Nat) : Option (Option Nat × State) :=
  match s.mem.currentp with
  | none => none
  | some p =>
    match deref s.heap p with
    | none => none
    | some c =>
      let fmallocp := c.start_addr + c.next_free_offset
      let c1 : file_memory :=
        { c with next_free_offset := (c.next_free_offset + aligned_size) % SIZE_MOD,
                 ref_count := c.ref_count + 1 }
      some (some (fmallocp + FILE_MALLOC_HEADER_SIZE),
            { s with heap := s.heap.set p (some c1),
                     words := (fmallocp, p) :: s.words })

/-- Value `aligned_size` of line 259. -/
def aligned_size_of (requested_size : Nat) : Nat :=
  round_num ((requested_size + FILE_MALLOC_HEADER_SIZE) % SIZE_MOD) PTR_WIDTH

/-- Value `needed_chunks` of lines 261 to 263. -/
def needed_chunks_of (CHUNK : Nat) (aligned_size : Nat) : Nat :=
  round_num aligned_size CHUNK / CHUNK

/-- Test of lines 275 to 278: is a new chunk needed?  (`none`: `mem.currentp`
dangles.) -/
def must_grow (s : State) (aligned_size : Nat) : Option Bool :=
  match s.mem.currentp with
  | none => some true
  | some p =>
    match deref s.heap p with
    | none => none
    | some c => some (decide ((c.next_free_offset + aligned_size) % SIZE_MOD > c.size))

/-- Path built by the `snprintf` of line 296 into a buffer of `malloc_size`
bytes. -/
def chunk_path (base : String) (index : Nat) : String :=
  let malloc_size := base.length + 1 + get_num_digits index + 1
  String.mk ((base ++ "." ++ toString index).data.take (malloc_size - 1))

/-- Function `file_malloc` (lines 249 to 324).  The result is the returned
pointer (`none` is `NULL`) and the new state. -/
def file_malloc (CHUNK : Nat) (sys : Sys) (s : State) (requested_size : Nat) :
    Option (Option Nat × State) :=
  if requested_size = 0 then
    some (none, { s with errno := EINVAL })
  else
    let aligned_size := aligned_size_of requested_size
    let needed_chunks := needed_chunks_of CHUNK aligned_size
    match must_grow s aligned_size with
    | none => none
    | some false => file_malloc_serve s aligned_size
    | some true =>
      if s.mem.max_chunks > 0 ∧
          (s.mem.next_chunk_index + needed_chunks) % SIZE_MOD > s.mem.max_chunks then
        some (none, { s with errno := ENOMEM })
      else
        match s.mem.base_path with
        | none => none
        | some base =>
          if !sys.malloc_tmp_path then
            some (none, { s with errno := ENOMEM })
          else
            let tmp_path := chunk_path base s.mem.next_chunk_index
            match add_file_memory sys s tmp_path ((needed_chunks * CHUNK) % SIZE_MOD) with
            | none => none
            | some (ret, s1) =>
              if ret ≠ 0 then
                some (none, { s1 with errno := ENOMEM })
              else
                file_malloc_serve
                  { s1 with mem := { s1.mem with
                      next_chunk_index := s1.mem.next_chunk_index + 1 } }
                  aligned_size

/-- Function `file_free` (lines 326 to 351): not implemented, returns at once. -/
def file_free (s : State) (_ptr : Option Nat) : State := s

/-- Function `init_memory` (lines 213 to 231); `malloc_ok` tells whether the
copy of the base path could be allocated. -/
def init_memory (malloc_ok : Bool) (s : State) (base_path : String) (max_chunks : Nat) :
    Nat × State :=
  if !malloc_ok then
    (1, { s with mem := { s.mem with base_path := none } })
  else
    (0, { s with mem := { base_path := some base_path, currentp := none,
                          next_chunk_index := 0, max_chunks := max_chunks } })

/-- Modelled from the spec: `fastfw_list` of `utils.h` is not in `src/`; the
spec calls it list fast-forward: follow `nextp` to the forward-most end. -/
def fastfw_list (heap : List (Option file_memory)) : Nat → Option Nat → Option (Option Nat)
  | _, none => some none
  | 0, some _ => none
  | fuel + 1, some p =>
    match deref heap p with
    | none => none
    | some c =>
      match c.nextp with
      | none => some (some p)
      | some q => fastfw_list heap fuel (some q)

/-- Loop of `uninit_file_memories` (lines 192 to 209). -/
def uninit_loop : Nat → State → Option Nat → Option State
  | _, s, none => some s
  | 0, _, some _ => none
  | fuel + 1, s, some p =>
    match deref s.heap p with
    | none => none
    | some c =>
      let tr1 := if c.start_addr ≠ 0 then [Event.unmapped c.start_addr c.size] else []
      let tr2 := if c.fd ≥ 0 then [Event.closed c.fd] else []
      uninit_loop fuel
        { s with heap := s.heap.set p none,
                 fs := unlink s.fs c.path,
                 trace := s.trace ++ tr1 ++ tr2 ++ [Event.unlinked c.path, Event.freed p] }
        c.prevp

/-- Function `uninit_file_memories` (lines 183 to 211).  Each round of either
loop visits one record, so `heap.length + 1` rounds are enough on a list
without a cycle. -/
def uninit_file_memories (s : State) (head : Option Nat) : Option State :=
  match fastfw_list s.heap (s.heap.length + 1) head with
  | none => none
  | some last => uninit_loop (s.heap.length + 1) s last

/-- Function `uninit_memory` (lines 233 to 247).  The copy of the base path is
freed when the pointer is not `NULL`; the pointer itself is left as it is. -/
def uninit_memory (s : State) : Option State :=
  match uninit_file_memories s s.mem.currentp with
  | none => none
  | some s1 =>
    let tr := if s1.mem.base_path ≠ none then [Event.freed_base_path] else []
    some { s1 with mem := { s1.mem with currentp := none, next_chunk_index := 0,
                                        max_chunks := 0 },
                   trace := s1.trace ++ tr }

/-- State of the process before `init_memory`: the static `mem` is zeroed. -/
def boot (fs0 : List String) : State :=
  { mem := { base_path := none, currentp := none, next_chunk_index := 0, max_chunks := 0 },
    heap := [], words := [], fs := fs0, errno := 0, trace := [] }

/-- State after a successful `init_memory(base_path, max_chunks)`. -/
def fresh (fs0 : List String) (base_path : String) (max_chunks : Nat) : State :=
  (init_memory true (boot fs0) base_path max_chunks).2

/-- A sequence of `file_malloc` calls, each with the answers of the operating
system and the requested size.  The result is the list of the returned pointers
in call order and the last state; `none` when a call ends the run. -/
def run (CHUNK : Nat) : State → List (Sys × Nat) → Option (List (Option Nat) × State)
  | s, [] => some ([], s)
  | s, (sys, n) :: rest =>
    match file_malloc CHUNK sys s n with
    | none => none
    | some (r, s1) =>
      match run CHUNK s1 rest with
      | none => none
      | some (rs, s2) => some (r :: rs, s2)

/-- Answers of an operating system where every call succeeds; `mmap` returns
`addr` and `open` returns `fd`. -/
def sys_ok (fd : Int) (addr : Nat) : Sys :=
  { malloc_tmp_path := true, malloc_record := true, malloc_path := true,
    open_fd := fd, lseek_ok := true, write_ok := true, mmap_addr := some addr }

/-- Cursor `next_free_offset` of the chunk record at `p`. -/
def cursor_of (s : State) (p : Nat) : Option Nat :=
  (deref s.heap p).map (fun c => c.next_free_offset)

/-- Paths of the files created so far, in creation order. -/
def created_paths : List Event → List String
  | [] => []
  | Event.created path _ :: rest => path :: created_paths rest
  | _ :: rest => created_paths rest

/-- Paths unlinked so far, in call order. -/
def unlinked_paths : List Event → List String
  | [] => []
  | Event.unlinked path :: rest => path :: unlinked_paths rest
  | _ :: rest => unlinked_paths rest

/-- Walk from `cur` along `prevp`: the pointers visited, at most `fuel` of them. -/
def walk_prev (heap : List (Option file_memory)) : Nat → Option Nat → List Nat
  | _, none => []
  | 0, some _ => []
  | fuel + 1, some p =>
    p :: (match deref heap p with
          | none => []
          | some c => walk_prev heap fuel c.prevp)

/-- The chunk list: the records reachable from `mem.currentp` along `prevp`,
newest first. -/
def chunk_list (s : State) : List Nat :=
  walk_prev s.heap (s.heap.length + 1) s.mem.currentp

/-- The list `l` of (pointer, path) pairs is the chain of records that starts at
`cur` and follows `prevp` to `NULL`; every `prevp` points to an older record. -/
inductive Chain (heap : List (Option file_memory)) : Option Nat → List (Nat × String) → Prop
  | nil : Chain heap none []
  | cons (p : Nat) (c : file_memory) (rest : List (Nat × String)) :
      deref heap p = some c → (∀ q ∈ rest, q.1 < p) → Chain heap c.prevp rest →
      Chain heap (some p) ((p, c.path) :: rest)

/-- State of scenario S1: after `init_memory("/tmp/fm", 0)` and one successful
`file_malloc(100)` with chunks of 4096 bytes, the file mapped at address 4096. -/
def state_S1 : State :=
  { mem := { base_path := some "/tmp/fm", currentp := some 0, next_chunk_index := 1,
             max_chunks := 0 },
    heap := [some { path := "/tmp/fm.0", fd := 3, size := 4096, start_addr := 4096,
                    next_free_offset := 112, ref_count := 1, nextp := none, prevp := none }],
    words := [(4096, 0)],
    fs := ["/tmp/fm.0"],
    errno := 0,
    trace := [Event.created "/tmp/fm.0" 3, Event.mapped 4096 4096] }

/-- State after `init_memory("/tmp/fm", 0)`, `file_malloc(100)` and
`file_malloc(5000)` with chunks of 4096 bytes, the files mapped at 4096 and at
65536. -/
def state_two_chunks : State :=
  { mem := { base_path := some "/tmp/fm", currentp := some 1, next_chunk_index := 2,
             max_chunks := 0 },
    heap := [some { path := "/tmp/fm.0", fd := 3, size := 4096, start_addr := 4096,
                    next_free_offset := 112, ref_count := 1, nextp := some 1,
                    prevp := none },
             some { path := "/tmp/fm.1", fd := 4, size := 8192, start_addr := 65536,
                    next_free_offset := 5008, ref_count := 1, nextp := none,
                    prevp := some 0 }],
    words := [(65536, 1), (4096, 0)],
    fs := ["/tmp/fm.1", "/tmp/fm.0"],
    errno := 0,
    trace := [Event.created "/tmp/fm.0" 3, Event.mapped 4096 4096,
              Event.created "/tmp/fm.1" 4, Event.mapped 65536 8192] }

/-- Invariant of the runs in which no allocation of a chunk record fails: the
records reachable from `mem.currentp` form a chain, their files lie on top of
the initial file system, newest first, the current record has no successor, and
every file created so far was unlinked or belongs to the chain. -/
def TeardownInv (fs0 : List String) (s : State) : Prop :=
  ∃ l : List (Nat × String), Chain s.heap s.mem.currentp l ∧
    s.fs = l.map Prod.snd ++ fs0 ∧ (l.map Prod.snd).Nodup ∧
    (∀ x ∈ l.map Prod.snd, x ∉ fs0) ∧
    (∀ p c, s.mem.currentp = some p → deref s.heap p = some c → c.nextp = none) ∧
    (created_paths s.trace).Perm (unlinked_paths s.trace ++ l.map Prod.snd)

/-- Invariant of the runs under a cap `k`: one record was added to the arena for
each chunk ordinal handed out, the cap is respected, every `prevp` points to an
older record, and `mem.currentp` points into the arena. -/
def CapInv (k : Nat) (s : State) : Prop :=
  s.heap.length = s.mem.next_chunk_index ∧ s.mem.max_chunks = k ∧
  (0 < k → s.heap.length ≤ k) ∧
  (∀ p c, deref s.heap p = some c → ∀ q, c.prevp = some q → q < p) ∧
  (∀ p, s.mem.currentp = some p → p < s.heap.length)

/-- State of scenario S2: after `init_memory("/tmp/fm", 0)` and four successful
`file_malloc(16)` with chunks of 64 bytes, the files mapped at 4096 and 8192. -/
def state_S2 : State :=
  { mem := { base_path := some "/tmp/fm", currentp := some 1, next_chunk_index := 2,
             max_chunks := 0 },
    heap := [some { path := "/tmp/fm.0", fd := 3, size := 64, start_addr := 4096,
                    next_free_offset := 48, ref_count := 2, nextp := some 1,
                    prevp := none },
             some { path := "/tmp/fm.1", fd := 4, size := 64, start_addr := 8192,
                    next_free_offset := 48, ref_count := 2, nextp := none,
                    prevp := some 0 }],
    words := [(8216, 1), (8192, 1), (4120, 0), (4096, 0)],
    fs := ["/tmp/fm.1", "/tmp/fm.0"],
    errno := 0,
    trace := [Event.created "/tmp/fm.0" 3, Event.mapped 4096 64,
              Event.created "/tmp/fm.1" 4, Event.mapped 8192 64] }

/-- Answers of an operating system where the `malloc` of the chunk record
fails and every other call would succeed. -/
def sys_record_fails (fd : Int) (addr : Nat) : Sys :=
  { malloc_tmp_path := true, malloc_record := false, malloc_path := true,
    open_fd := fd, lseek_ok := true, write_ok := true, mmap_addr := some addr }

/-- Invariant of all runs, on the names of the chunk files: the manager keeps
its base path, one record was added to the arena for each ordinal handed out,
the record at index `j` is live, carries the path of ordinal `j` and its file
exists, and two different records have different paths. -/
def NameInv (base : String) (s : State) : Prop :=
  s.mem.base_path = some base ∧ s.heap.length = s.mem.next_chunk_index ∧
  (∀ j, j < s.heap.length →
    ∃ c, deref s.heap j = some c ∧ c.path = chunk_path base j ∧ c.path ∈ s.fs) ∧
  (∀ i j ci cj, deref s.heap i = some ci → deref s.heap j = some cj → i ≠ j →
    ci.path ≠ cj.path)

/-- The list `[p, p - 1, ..., 0]`. -/
def countdown : Nat → List Nat
  | 0 => [0]
  | p + 1 => (p + 1) :: countdown p

/-- Invariant of the runs in which no allocation of a chunk record fails, on the
shape of the list: one record per ordinal, `mem.currentp` is the newest record,
and record `j` has the record before it as `prevp` and the record after it as
`nextp`. -/
def ListInv (s : State) : Prop :=
  s.heap.length = s.mem.next_chunk_index ∧
  s.mem.currentp = (if s.heap.length = 0 then none else some (s.heap.length - 1)) ∧
  ∀ j, j < s.heap.length → ∃ c, deref s.heap j = some c ∧
    c.prevp = (if j = 0 then none else some (j - 1)) ∧
    c.nextp = (if j + 1 = s.heap.length then none else some (j + 1))

/-- A call of the interface during the life of the manager: `file_malloc` with
the answers of the operating system and the requested size, or `file_free` with
a pointer. -/
inductive Call where
  | malloc (sys : Sys) (n : Nat)
  | free (ptr : Option Nat)

/-- A sequence of `file_malloc` and `file_free` calls.  The result is the list
of the pointers returned by the `file_malloc` calls, in call order, and the
last state; `none` when a call ends the run. -/
def run_calls (CHUNK : Nat) : State → List Call → Option (List (Option Nat) × State)
  | s, [] => some ([], s)
  | s, Call.free ptr :: rest => run_calls CHUNK (file_free s ptr) rest
  | s, Call.malloc sys n :: rest =>
    match file_malloc CHUNK sys s n with
    | none => none
    | some (r, s1) =>
      match run_calls CHUNK s1 rest with
      | none => none
      | some (rs, s2) => some (r :: rs, s2)

/-- The `file_malloc` calls of a sequence of calls, in order. -/
def mallocs_of : List Call → List (Sys × Nat)
  | [] => []
  | Call.free _ :: rest => mallocs_of rest
  | Call.malloc sys n :: rest => (sys, n) :: mallocs_of rest

/-! ## Access to the arena -/

theorem deref_lt {heap : List (Option file_memory)} {p : Nat} {c : file_memory}
    (h : deref heap p = some c) : p < heap.length := by
  unfold deref at h
  by_contra hlt
  have : heap[p]? = none := List.getElem?_eq_none (by omega)
  simp [this] at h

theorem deref_eq_some {heap : List (Option file_memory)} {p : Nat} {c : file_memory} :
    deref heap p = some c ↔ heap[p]? = some (some c) := by
  unfold deref
  constructor
  · intro h
    split at h
    · next c1 heq => simp at h; simp [heq, h]
    · simp at h
  · intro h
    simp [h]

theorem deref_set (heap : List (Option file_memory)) (p q : Nat) (x : Option file_memory) :
    deref (heap.set p x) q = if p = q ∧ p < heap.length then x else deref heap q := by
  unfold deref
  by_cases hpq : p = q
  · subst hpq
    by_cases hlt : p < heap.length
    · simp [hlt, List.getElem?_set_self]
      cases x <;> simp
    · have h1 : heap[p]? = none := List.getElem?_eq_none (by omega)
      have h2 : (heap.set p x)[p]? = none := List.getElem?_eq_none (by simp; omega)
      simp [hlt, h1, h2]
  · simp [hpq, List.getElem?_set_ne hpq]

theorem deref_append_one (heap : List (Option file_memory)) (q : Nat) (x : Option file_memory) :
    deref (heap ++ [x]) q =
      if q < heap.length then deref heap q else if q = heap.length then x else none := by
  unfold deref
  by_cases hlt : q < heap.length
  · simp [hlt, List.getElem?_append_left hlt]
  · by_cases heq : q = heap.length
    · subst heq
      simp
      cases x <;> simp
    · have : (heap ++ [x])[q]? = none := List.getElem?_eq_none (by simp; omega)
      simp [hlt, heq, this]

/-! ## One call of `file_malloc` -/

theorem file_malloc_serve_some {s s1 : State} {a : Nat} {r : Option Nat}
    (h : file_malloc_serve s a = some (r, s1)) :
    ∃ p c, s.mem.currentp = some p ∧ deref s.heap p = some c ∧
      r = some (c.start_addr + c.next_free_offset + FILE_MALLOC_HEADER_SIZE) ∧
      s1 = { s with
        heap := s.heap.set p (some { c with
          next_free_offset := (c.next_free_offset + a) % SIZE_MOD,
          ref_count := c.ref_count + 1 }),
        words := (c.start_addr + c.next_free_offset, p) :: s.words } := by
  unfold file_malloc_serve at h
  cases hp : s.mem.currentp with
  | none => simp [hp] at h
  | some p =>
    cases hc : deref s.heap p with
    | none => simp [hp, hc] at h
    | some c =>
      simp only [hp, hc, Option.some.injEq, Prod.mk.injEq] at h
      exact ⟨p, c, rfl, hc, h.1.symm, h.2.symm⟩

theorem unlink_cons_self {fs : List String} {path : String} (h : path ∉ fs) :
    unlink (path :: fs) path = fs := by
  unfold unlink
  simp only [List.filter_cons, ne_eq, not_true_eq_false, decide_False]
  simp only [Bool.false_eq_true, if_false]
  rw [List.filter_eq_self]
  intro q hq
  simp only [decide_eq_true_eq]
  rintro rfl
  exact h hq

theorem open_excl_free {sys : Sys} {fs : List String} {path : String}
    (h : ¬ open_excl sys fs path < 0) : path ∉ fs := by
  intro hm
  simp [open_excl, hm] at h

/-- What `add_file_memory` does when it fails. -/
theorem add_file_memory_fail {sys : Sys} {s s1 : State} {path : String} {size ret : Nat}
    (h : add_file_memory sys s path size = some (ret, s1)) (hret : ret ≠ 0) :
    s1.heap = s.heap ∧ s1.words = s.words ∧ s1.fs = s.fs ∧ s1.errno = s.errno ∧
    s1.mem.base_path = s.mem.base_path ∧
    s1.mem.next_chunk_index = s.mem.next_chunk_index ∧
    s1.mem.max_chunks = s.mem.max_chunks ∧
    s1.mem.currentp = (if sys.malloc_record then s.mem.currentp else none) ∧
    (s1.trace = s.trace ∨ ∃ fd, s1.trace =
      s.trace ++ [Event.created path fd] ++ [Event.closed fd, Event.unlinked path]) := by
  by_cases h0 : size = 0
  · simp [add_file_memory, h0] at h
  by_cases h1 : sys.malloc_record = true
  swap
  · simp [add_file_memory, h0, h1] at h
    obtain ⟨-, rfl⟩ := h
    simp [h1]
  by_cases h2 : sys.malloc_path = true
  swap
  · simp [add_file_memory, h0, h1, h2] at h
    obtain ⟨-, rfl⟩ := h
    simp [h1]
  by_cases h3 : open_excl sys s.fs path < 0
  · simp [add_file_memory, h0, h1, h2, h3] at h
    obtain ⟨-, rfl⟩ := h
    simp [h1]
  have hfree := unlink_cons_self (open_excl_free h3)
  by_cases h4 : lseek_set sys.lseek_ok ((size + SIZE_MOD - 1) % SIZE_MOD) =
      (size + SIZE_MOD - 1) % SIZE_MOD
  swap
  · simp [add_file_memory, h0, h1, h2, h3, h4] at h
    obtain ⟨-, rfl⟩ := h
    simp [h1, hfree]
  by_cases h5 : sys.write_ok = true
  swap
  · simp [add_file_memory, h0, h1, h2, h3, h4, h5] at h
    obtain ⟨-, rfl⟩ := h
    simp [h1, hfree]
  cases hm : sys.mmap_addr with
  | none =>
    simp [add_file_memory, h0, h1, h2, h3, h4, h5, hm] at h
    obtain ⟨-, rfl⟩ := h
    simp [h1, hfree]
  | some addr =>
    cases hl : link_prev s.heap s.mem.currentp s.heap.length with
    | none => simp [add_file_memory, h0, h1, h2, h3, h4, h5, hm, hl] at h
    | some heap1 =>
      simp [add_file_memory, h0, h1, h2, h3, h4, h5, hm, hl] at h
      exact absurd h.1.symm hret

theorem lseek_set_eq {ok : Bool} {size : Nat} (h0 : size ≠ 0) (hs : size < SIZE_MOD)
    (h : lseek_set ok ((size + SIZE_MOD - 1) % SIZE_MOD) = (size + SIZE_MOD - 1) % SIZE_MOD) :
    size ≤ OFF_MAX + 1 ∧ ok = true := by
  unfold lseek_set at h
  simp only [SIZE_MOD, OFF_MAX] at *
  split_ifs at h with h6
  · simp at h6
    refine ⟨?_, h6.1⟩
    omega
  · exfalso
    omega

/-- What `add_file_memory` does when it succeeds. -/
theorem add_file_memory_ok {sys : Sys} {s s1 : State} {path : String} {size : Nat}
    (h : add_file_memory sys s path size = some (0, s1)) :
    size ≠ 0 ∧ sys.malloc_record = true ∧ path ∉ s.fs ∧
    (size < SIZE_MOD → size ≤ OFF_MAX + 1) ∧
    ∃ addr heap1, sys.mmap_addr = some addr ∧
      link_prev s.heap s.mem.currentp s.heap.length = some heap1 ∧
      s1 = { s with
        mem := { s.mem with currentp := some s.heap.length },
        heap := heap1 ++ [some
          { path := path, fd := open_excl sys s.fs path, size := size, start_addr := addr,
            next_free_offset := 0, ref_count := 0, nextp := none,
            prevp := s.mem.currentp }],
        fs := path :: s.fs,
        trace := s.trace ++ [Event.created path (open_excl sys s.fs path)] ++
          [Event.mapped addr size] } := by
  by_cases h0 : size = 0
  · simp [add_file_memory, h0] at h
  by_cases h1 : sys.malloc_record = true
  swap
  · simp [add_file_memory, h0, h1] at h
  by_cases h2 : sys.malloc_path = true
  swap
  · simp [add_file_memory, h0, h1, h2] at h
  by_cases h3 : open_excl sys s.fs path < 0
  · simp [add_file_memory, h0, h1, h2, h3] at h
  by_cases h4 : lseek_set sys.lseek_ok ((size + SIZE_MOD - 1) % SIZE_MOD) =
      (size + SIZE_MOD - 1) % SIZE_MOD
  swap
  · simp [add_file_memory, h0, h1, h2, h3, h4] at h
  by_cases h5 : sys.write_ok = true
  swap
  · simp [add_file_memory, h0, h1, h2, h3, h4, h5] at h
  cases hm : sys.mmap_addr with
  | none => simp [add_file_memory, h0, h1, h2, h3, h4, h5, hm] at h
  | some addr =>
    cases hl : link_prev s.heap s.mem.currentp s.heap.length with
    | none => simp [add_file_memory, h0, h1, h2, h3, h4, h5, hm, hl] at h
    | some heap1 =>
      simp [add_file_memory, h0, h1, h2, h3, h4, h5, hm, hl] at h
      exact ⟨h0, h1, open_excl_free h3, fun hs => (lseek_set_eq h0 hs h4).1, addr, heap1, rfl, rfl, by
        rw [← h]; simp⟩

theorem link_prev_length {heap heap1 : List (Option file_memory)} {prev : Option Nat}
    {p : Nat} (h : link_prev heap prev p = some heap1) : heap1.length = heap.length := by
  unfold link_prev at h
  cases prev with
  | none => simp at h; simp [← h]
  | some q =>
    cases hd : deref heap q with
    | none => simp [hd] at h
    | some d => simp [hd] at h; simp [← h]

/-- The three ways a call of `file_malloc` can return. -/
theorem file_malloc_cases {CHUNK : Nat} {sys : Sys} {s s1 : State} {n : Nat} {r : Option Nat}
    (h : file_malloc CHUNK sys s n = some (r, s1)) :
    (r = none ∧ s1.heap = s.heap ∧ s1.words = s.words ∧ s1.fs = s.fs ∧
      s1.mem.base_path = s.mem.base_path ∧
      s1.mem.next_chunk_index = s.mem.next_chunk_index ∧
      s1.mem.max_chunks = s.mem.max_chunks ∧
      (s1.mem.currentp = s.mem.currentp ∨
        (sys.malloc_record = false ∧ s1.mem.currentp = none)) ∧
      (s1.errno = EINVAL ∨ s1.errno = ENOMEM) ∧
      (s1.trace = s.trace ∨ ∃ path fd, s1.trace =
        s.trace ++ [Event.created path fd] ++ [Event.closed fd, Event.unlinked path])) ∨
    (∃ p c, n ≠ 0 ∧ s.mem.currentp = some p ∧ deref s.heap p = some c ∧
      (c.next_free_offset + aligned_size_of n) % SIZE_MOD ≤ c.size ∧
      r = some (c.start_addr + c.next_free_offset + FILE_MALLOC_HEADER_SIZE) ∧
      s1 = { s with
        heap := s.heap.set p (some { c with
          next_free_offset := (c.next_free_offset + aligned_size_of n) % SIZE_MOD,
          ref_count := c.ref_count + 1 }),
        words := (c.start_addr + c.next_free_offset, p) :: s.words }) ∨
    (∃ base addr fd heap1, n ≠ 0 ∧ must_grow s (aligned_size_of n) = some true ∧
      ¬ (s.mem.max_chunks > 0 ∧
        (s.mem.next_chunk_index + needed_chunks_of CHUNK (aligned_size_of n)) % SIZE_MOD >
          s.mem.max_chunks) ∧
      s.mem.base_path = some base ∧
      chunk_path base s.mem.next_chunk_index ∉ s.fs ∧
      (needed_chunks_of CHUNK (aligned_size_of n) * CHUNK) % SIZE_MOD ≠ 0 ∧
      (needed_chunks_of CHUNK (aligned_size_of n) * CHUNK) % SIZE_MOD ≤ OFF_MAX + 1 ∧
      sys.malloc_record = true ∧ sys.mmap_addr = some addr ∧
      link_prev s.heap s.mem.currentp s.heap.length = some heap1 ∧
      r = some (addr + 0 + FILE_MALLOC_HEADER_SIZE) ∧
      s1 = { s with
        mem := { s.mem with currentp := some s.heap.length,
                            next_chunk_index := s.mem.next_chunk_index + 1 },
        heap := heap1 ++ [some
          { path := chunk_path base s.mem.next_chunk_index, fd := fd,
            size := (needed_chunks_of CHUNK (aligned_size_of n) * CHUNK) % SIZE_MOD,
            start_addr := addr,
            next_free_offset := (0 + aligned_size_of n) % SIZE_MOD,
            ref_count := 0 + 1, nextp := none, prevp := s.mem.currentp }],
        words := (addr + 0, s.heap.length) :: s.words,
        fs := chunk_path base s.mem.next_chunk_index :: s.fs,
        trace := s.trace ++ [Event.created (chunk_path base s.mem.next_chunk_index) fd] ++
          [Event.mapped addr
            ((needed_chunks_of CHUNK (aligned_size_of n) * CHUNK) % SIZE_MOD)] }) := by
  by_cases hn : n = 0
  · simp [file_malloc, hn] at h
    obtain ⟨rfl, rfl⟩ := h
    left
    simp
  cases hg : must_grow s (aligned_size_of n) with
  | none => simp [file_malloc, hn, hg] at h
  | some b =>
    cases b with
    | false =>
      simp [file_malloc, hn, hg] at h
      obtain ⟨p, c, hp, hc, rfl, rfl⟩ := file_malloc_serve_some h
      right; left
      refine ⟨p, c, hn, hp, hc, ?_, rfl, rfl⟩
      simp [must_grow, hp, hc] at hg
      exact hg
    | true =>
      by_cases hcap : s.mem.max_chunks > 0 ∧
        (s.mem.next_chunk_index + needed_chunks_of CHUNK (aligned_size_of n)) % SIZE_MOD >
          s.mem.max_chunks
      · simp only [file_malloc, hn, hg, if_false, hcap, and_self, if_true] at h
        simp at h
        obtain ⟨rfl, rfl⟩ := h
        left
        simp
      cases hb : s.mem.base_path with
      | none => simp [file_malloc, hn, hg, hcap, hb] at h
      | some base =>
        by_cases ht : sys.malloc_tmp_path = true
        swap
        · simp only [file_malloc, hn, hg, if_false, hcap, hb] at h
          simp [ht] at h
          obtain ⟨rfl, rfl⟩ := h
          left
          simp [hb]
        cases ha : add_file_memory sys s (chunk_path base s.mem.next_chunk_index)
            ((needed_chunks_of CHUNK (aligned_size_of n) * CHUNK) % SIZE_MOD) with
        | none =>
          simp only [file_malloc, hn, hg, if_false, hcap, hb] at h
          simp [ht, ha] at h
        | some res =>
          obtain ⟨ret, s2⟩ := res
          by_cases hret : ret = 0
          · subst hret
            simp only [file_malloc, hn, hg, if_false, hcap, hb] at h
            simp [ht, ha] at h
            obtain ⟨h0, hrec, hfs, hoff, addr, heap1, hm, hl, rfl⟩ := add_file_memory_ok ha
            obtain ⟨p, c, hp, hc, rfl, rfl⟩ := file_malloc_serve_some h
            simp at hp
            subst hp
            have hlen : heap1.length = s.heap.length := link_prev_length hl
            simp [deref_append_one, hlen] at hc
            subst hc
            right; right
            refine ⟨base, addr, open_excl sys s.fs (chunk_path base s.mem.next_chunk_index),
              heap1, hn, rfl, hcap, rfl, hfs, h0, hoff (Nat.mod_lt _ (by decide)), hrec, hm, hl,
              rfl, ?_⟩
            simp [← hlen]
          · simp only [file_malloc, hn, hg, if_false, hcap, hb] at h
            simp [ht, ha, hret] at h
            obtain ⟨rfl, rfl⟩ := h
            obtain ⟨e1, e2, e3, e4, e5, e6, e7, e8, e9⟩ := add_file_memory_fail ha hret
            left
            refine ⟨rfl, e1, e2, e3, e5.trans hb, e6, e7, ?_, Or.inr rfl, ?_⟩
            · by_cases hr : sys.malloc_record = true
              · left; simpa [hr] using e8
              · right; simp at hr; simpa [hr] using e8
            · rcases e9 with e9 | ⟨fd, e9⟩
              · exact Or.inl e9
              · exact Or.inr ⟨_, fd, e9⟩

/-! ## Runs -/

theorem run_cons_some {CHUNK : Nat} {s s2 : State} {sys : Sys} {n : Nat}
    {rest : List (Sys × Nat)} {rs : List (Option Nat)}
    (h : run CHUNK s ((sys, n) :: rest) = some (rs, s2)) :
    ∃ r s1 rs1, file_malloc CHUNK sys s n = some (r, s1) ∧
      run CHUNK s1 rest = some (rs1, s2) ∧ rs = r :: rs1 := by
  simp only [run] at h
  cases hf : file_malloc CHUNK sys s n with
  | none => simp [hf] at h
  | some res =>
    obtain ⟨r, s1⟩ := res
    cases hr : run CHUNK s1 rest with
    | none => simp [hf, hr] at h
    | some res2 =>
      obtain ⟨rs1, s3⟩ := res2
      simp [hf, hr] at h
      exact ⟨r, s1, rs1, rfl, by rw [← h.2, hr], h.1.symm⟩

/-- Induction along a run: a property of states that every call preserves, and
a property of returned pointers that every call establishes. -/
theorem run_induction {CHUNK : Nat} (P : State → Prop) (Q : Option Nat → Prop)
    (good : Sys → Prop)
    (hstep : ∀ s sys n r s1, good sys → P s → file_malloc CHUNK sys s n = some (r, s1) →
      P s1 ∧ Q r) :
    ∀ (calls : List (Sys × Nat)) (s : State) (rs : List (Option Nat)) (s2 : State),
      P s → (∀ c ∈ calls, good c.1) → run CHUNK s calls = some (rs, s2) →
      P s2 ∧ ∀ r ∈ rs, Q r := by
  intro calls
  induction calls with
  | nil =>
    intro s rs s2 hP _ h
    simp [run] at h
    obtain ⟨rfl, rfl⟩ := h
    exact ⟨hP, by simp⟩
  | cons c rest ih =>
    intro s rs s2 hP hgood h
    obtain ⟨sys, n⟩ := c
    obtain ⟨r, s1, rs1, hf, hr, rfl⟩ := run_cons_some h
    have h1 := hstep s sys n r s1 (hgood (sys, n) (by simp)) hP hf
    have h2 := ih s1 rs1 s2 h1.1 (fun c hc => hgood c (by simp [hc])) hr
    refine ⟨h2.1, ?_⟩
    intro x hx
    simp at hx
    rcases hx with rfl | hx
    · exact h1.2
    · exact h2.2 x hx

/-! ## Arithmetic of the sizes -/

theorem aligned_size_of_lt (n : Nat) : aligned_size_of n < SIZE_MOD := by
  unfold aligned_size_of round_num
  exact Nat.mod_lt _ (by decide)

theorem aligned_size_of_mod (n : Nat) : aligned_size_of n % PTR_WIDTH = 0 := by
  unfold aligned_size_of round_num
  simp only [SIZE_MOD, PTR_WIDTH, FILE_MALLOC_HEADER_SIZE]
  omega

theorem needed_mul_le (C a : Nat) : needed_chunks_of C a * C ≤ round_num a C := by
  unfold needed_chunks_of
  exact Nat.div_mul_le_self _ _

theorem round_num_lt (x m : Nat) : round_num x m < SIZE_MOD := by
  unfold round_num
  exact Nat.mod_lt _ (by decide)

theorem needed_mul_mod (C a : Nat) :
    (needed_chunks_of C a * C) % SIZE_MOD = needed_chunks_of C a * C :=
  Nat.mod_eq_of_lt (lt_of_le_of_lt (needed_mul_le C a) (round_num_lt a C))

/-- A non-empty new chunk is no smaller than the aligned size it was made for. -/
theorem chunk_size_fits (C a : Nat) (ha : a < SIZE_MOD)
    (hs : needed_chunks_of C a * C ≠ 0) : a ≤ needed_chunks_of C a * C := by
  have hC : 0 < C := by
    rcases Nat.eq_zero_or_pos C with h | h
    · subst h; simp at hs
    · exact h
  have hge : a ≤ (a + C - 1) / C * C := by
    have h1 := Nat.div_add_mod (a + C - 1) C
    have h2 := Nat.mod_lt (a + C - 1) hC
    have h3 : (a + C - 1) / C * C = C * ((a + C - 1) / C) := Nat.mul_comm _ _
    omega
  have hlt : (a + C - 1) / C * C < a + C := by
    have h1 := Nat.div_mul_le_self (a + C - 1) C
    omega
  by_cases hR : (a + C - 1) / C * C < SIZE_MOD
  · have : round_num a C = (a + C - 1) / C * C := by
      unfold round_num; exact Nat.mod_eq_of_lt hR
    unfold needed_chunks_of
    rw [this, Nat.mul_div_cancel _ hC]
    exact hge
  · exfalso
    apply hs
    have h1 : round_num a C ≤ (a + C - 1) / C * C - SIZE_MOD := by
      unfold round_num
      have := Nat.mod_eq_sub_mod (Nat.le_of_not_lt hR)
      rw [this]
      exact Nat.mod_le _ _
    have h2 : round_num a C < C := by omega
    unfold needed_chunks_of
    rw [Nat.div_eq_of_lt h2]
    simp

/-! ## Records of the arena along a call -/

theorem link_prev_deref {heap heap1 : List (Option file_memory)} {prev : Option Nat}
    {p q : Nat} (h : link_prev heap prev p = some heap1) :
    (∀ c1, deref heap1 q = some c1 →
      ∃ c, deref heap q = some c ∧ c1 = { c with nextp := c1.nextp }) ∧
    (∀ c, deref heap q = some c →
      ∃ c1, deref heap1 q = some c1 ∧ c1 = { c with nextp := c1.nextp }) := by
  unfold link_prev at h
  cases prev with
  | none =>
    simp at h
    subst h
    exact ⟨fun c1 h1 => ⟨c1, h1, rfl⟩, fun c h1 => ⟨c, h1, rfl⟩⟩
  | some q0 =>
    cases hd : deref heap q0 with
    | none => simp [hd] at h
    | some d =>
      simp [hd] at h
      subst h
      have hlt := deref_lt hd
      constructor
      · intro c1 h1
        rw [deref_set] at h1
        by_cases hq : q0 = q
        · subst hq
          simp [hlt] at h1
          exact ⟨d, hd, by rw [← h1]⟩
        · simp [hq] at h1
          exact ⟨c1, h1, rfl⟩
      · intro c h1
        rw [deref_set]
        by_cases hq : q0 = q
        · subst hq
          simp [hlt]
          rw [hd] at h1
          simp at h1
          subst h1
          simp
        · simp [hq]
          exact ⟨c, h1, rfl⟩

/-- Every record after a call is a record from before the call with `nextp`
possibly changed, or the current record with its cursor moved within the chunk,
or the record of a chunk just created for the request. -/
theorem file_malloc_records {CHUNK : Nat} {sys : Sys} {s s1 : State} {n : Nat}
    {r : Option Nat} (h : file_malloc CHUNK sys s n = some (r, s1)) (q : Nat)
    (c1 : file_memory) (hq : deref s1.heap q = some c1) :
    (∃ c, deref s.heap q = some c ∧ c1 = { c with nextp := c1.nextp }) ∨
    (∃ c, deref s.heap q = some c ∧ s.mem.currentp = some q ∧
      (c.next_free_offset + aligned_size_of n) % SIZE_MOD ≤ c.size ∧
      r = some (c.start_addr + c.next_free_offset + FILE_MALLOC_HEADER_SIZE) ∧
      c1 = { c with
        next_free_offset := (c.next_free_offset + aligned_size_of n) % SIZE_MOD,
        ref_count := c.ref_count + 1 }) ∨
    (q = s.heap.length ∧ s1.mem.currentp = some q ∧
      needed_chunks_of CHUNK (aligned_size_of n) * CHUNK ≠ 0 ∧
      sys.mmap_addr = some c1.start_addr ∧
      r = some (c1.start_addr + 0 + FILE_MALLOC_HEADER_SIZE) ∧
      c1.size = needed_chunks_of CHUNK (aligned_size_of n) * CHUNK ∧
      c1.next_free_offset = aligned_size_of n ∧ c1.ref_count = 1 ∧
      c1.prevp = s.mem.currentp ∧ c1.nextp = none) := by
  rcases file_malloc_cases h with hfail | ⟨p, c, hn, hp, hc, hle, rfl, rfl⟩ |
    ⟨base, addr, fd, heap1, hn, hg, hcap, hb, hfs, h0, hoff, hrec, hm, hl, rfl, rfl⟩
  · left
    rw [hfail.2.1] at hq
    exact ⟨c1, hq, rfl⟩
  · simp only [deref_set] at hq
    by_cases hpq : p = q
    · subst hpq
      simp [deref_lt hc] at hq
      right; left
      exact ⟨c, hc, hp, hle, rfl, hq.symm⟩
    · simp [hpq] at hq
      left
      exact ⟨c1, hq, rfl⟩
  · simp only [deref_append_one, link_prev_length hl] at hq
    by_cases hlt : q < s.heap.length
    · simp [hlt] at hq
      left
      exact (link_prev_deref hl).1 c1 hq
    · by_cases heq : q = s.heap.length
      · simp [heq] at hq
        subst hq
        right; right
        rw [needed_mul_mod] at h0
        refine ⟨heq, by simp [heq], h0, by simpa using hm, rfl, ?_, ?_, rfl, rfl, rfl⟩
        · simp [needed_mul_mod]
        · simp [Nat.mod_eq_of_lt (aligned_size_of_lt n)]
      · simp [hlt, heq] at hq

/-- Invariant for C2: the cursor of every chunk is inside the chunk. -/
theorem cursor_bound_step {CHUNK : Nat} {sys : Sys} {s s1 : State} {n : Nat}
    {r : Option Nat} (h : file_malloc CHUNK sys s n = some (r, s1))
    (hI : ∀ p c, deref s.heap p = some c → c.next_free_offset ≤ c.size) :
    ∀ p c, deref s1.heap p = some c → c.next_free_offset ≤ c.size := by
  intro q c1 hq
  rcases file_malloc_records h q c1 hq with ⟨c, hc, e⟩ | ⟨c, hc, -, hle, -, e⟩ |
    ⟨-, -, h0, -, -, hsz, hcur, -⟩
  · rw [e]
    exact hI q c hc
  · rw [e]
    exact hle
  · rw [hsz, hcur]
    exact chunk_size_fits CHUNK _ (aligned_size_of_lt n) h0

theorem fresh_heap (fs0 : List String) (base : String) (k : Nat) :
    (fresh fs0 base k).heap = [] := rfl

theorem deref_nil (p : Nat) : deref [] p = none := by
  simp [deref]

theorem deref_append_self (heap : List (Option file_memory)) (c : file_memory) :
    deref (heap ++ [some c]) heap.length = some c := by
  simp [deref_append_one]

/-- Invariant for C4: cursors and mapping addresses stay multiples of the
pointer width, and so does every returned pointer. -/
theorem alignment_step {CHUNK : Nat} {sys : Sys} {s s1 : State} {n : Nat}
    {r : Option Nat} (h : file_malloc CHUNK sys s n = some (r, s1))
    (hsys : ∀ a, sys.mmap_addr = some a → a % PTR_WIDTH = 0)
    (hI : ∀ p c, deref s.heap p = some c →
      c.next_free_offset % PTR_WIDTH = 0 ∧ c.start_addr % PTR_WIDTH = 0) :
    (∀ p c, deref s1.heap p = some c →
      c.next_free_offset % PTR_WIDTH = 0 ∧ c.start_addr % PTR_WIDTH = 0) ∧
    (∀ ptr, r = some ptr → ptr % PTR_WIDTH = 0) := by
  have ha := aligned_size_of_mod n
  constructor
  · intro q c1 hq
    rcases file_malloc_records h q c1 hq with ⟨c, hc, e⟩ | ⟨c, hc, -, -, -, e⟩ |
      ⟨-, -, -, hm, -, -, hcur, -⟩
    · rw [e]
      exact hI q c hc
    · have := hI q c hc
      rw [e]
      simp only [PTR_WIDTH, SIZE_MOD] at *
      omega
    · rw [hcur]
      exact ⟨ha, hsys _ hm⟩
  · intro ptr hr
    rcases file_malloc_cases h with hfail | ⟨p, c, hn, hp, hc, hle, hr2, -⟩ |
      ⟨base, addr, fd, heap1, hn, hg, hcap, hb, hfs, h0, hoff, hrec, hm, hl, hr2, -⟩
    · rw [hfail.1] at hr
      simp at hr
    · rw [hr2] at hr
      simp only [Option.some.injEq] at hr
      have := hI p c hc
      simp only [PTR_WIDTH, FILE_MALLOC_HEADER_SIZE] at *
      omega
    · rw [hr2] at hr
      simp only [Option.some.injEq] at hr
      have := hsys _ hm
      simp only [PTR_WIDTH, FILE_MALLOC_HEADER_SIZE] at *
      omega

/-! ## The chain of chunk records -/

/-- A chain only depends on the `prevp` and `path` fields of its own records. -/
theorem Chain.congr {heap heap1 : List (Option file_memory)} {cur : Option Nat}
    {l : List (Nat × String)} (h : Chain heap cur l)
    (hsame : ∀ q ∈ l, ∀ c, deref heap q.1 = some c →
      ∃ c1, deref heap1 q.1 = some c1 ∧ c1.prevp = c.prevp ∧ c1.path = c.path) :
    Chain heap1 cur l := by
  induction h with
  | nil => exact Chain.nil
  | cons p c rest hc hlt _ ih =>
    obtain ⟨c1, hc1, hprev, hpath⟩ := hsame (p, c.path) (by simp) c hc
    rw [← hpath]
    refine Chain.cons p c1 rest hc1 hlt ?_
    rw [hprev]
    exact ih (fun q hq c2 hc2 => hsame q (by simp [hq]) c2 hc2)

/-- The pointers of a chain are below any bound on its first pointer. -/
theorem Chain.length_le {heap : List (Option file_memory)} {cur : Option Nat}
    {l : List (Nat × String)} (h : Chain heap cur l) :
    ∀ b, (∀ q ∈ l, q.1 < b) → l.length ≤ b := by
  induction h with
  | nil => intro b _; simp
  | cons p c rest _ hlt _ ih =>
    intro b hb
    have h1 := ih p hlt
    have h2 := hb (p, c.path) (by simp)
    simp only [List.length_cons]
    omega

theorem Chain.lt_length {heap : List (Option file_memory)} {cur : Option Nat}
    {l : List (Nat × String)} (h : Chain heap cur l) :
    ∀ q ∈ l, q.1 < heap.length := by
  cases h with
  | nil => simp
  | cons p c rest hc hlt _ =>
    intro q hq
    have hp := deref_lt hc
    simp only [List.mem_cons] at hq
    rcases hq with rfl | hq
    · exact hp
    · exact lt_trans (hlt q hq) hp

theorem created_paths_append (a b : List Event) :
    created_paths (a ++ b) = created_paths a ++ created_paths b := by
  induction a with
  | nil => simp [created_paths]
  | cons e a ih => cases e <;> simp [created_paths, ih]

theorem unlinked_paths_append (a b : List Event) :
    unlinked_paths (a ++ b) = unlinked_paths a ++ unlinked_paths b := by
  induction a with
  | nil => simp [unlinked_paths]
  | cons e a ih => cases e <;> simp [unlinked_paths, ih]

/-- Unlinking the paths of a stack of files, newest first, leaves what was below. -/
theorem unlink_stack (l : List String) (fs0 : List String) (hnd : l.Nodup)
    (hdis : ∀ x ∈ l, x ∉ fs0) : l.foldl unlink (l ++ fs0) = fs0 := by
  induction l with
  | nil => simp
  | cons x l ih =>
    have hx : x ∉ l ++ fs0 := by
      simp only [List.mem_append, not_or]
      exact ⟨(List.nodup_cons.1 hnd).1, hdis x (by simp)⟩
    simp only [List.cons_append, List.foldl_cons, unlink_cons_self hx]
    exact ih (List.nodup_cons.1 hnd).2 (fun y hy => hdis y (by simp [hy]))

/-- The loop of `uninit_file_memories` on a chain: it ends, and what it does. -/
theorem uninit_loop_chain (l : List (Nat × String)) :
    ∀ (fuel : Nat) (s : State) (cur : Option Nat), Chain s.heap cur l → l.length ≤ fuel →
      ∃ s1, uninit_loop fuel s cur = some s1 ∧
        s1.fs = (l.map Prod.snd).foldl unlink s.fs ∧
        s1.mem = s.mem ∧ s1.words = s.words ∧ s1.errno = s.errno ∧
        s1.heap.length = s.heap.length ∧
        created_paths s1.trace = created_paths s.trace ∧
        unlinked_paths s1.trace = unlinked_paths s.trace ++ l.map Prod.snd := by
  induction l with
  | nil =>
    intro fuel s cur hch _
    cases hch
    refine ⟨s, ?_, by simp⟩
    cases fuel <;> simp [uninit_loop]
  | cons x rest ih =>
    intro fuel s cur hch hfuel
    cases hch with
    | cons p c _ hc hlt hrest =>
      cases fuel with
      | zero => simp at hfuel
      | succ fuel =>
        simp only [List.length_cons, Nat.add_le_add_iff_right] at hfuel
        simp only [uninit_loop, hc]
        have hch2 : Chain (s.heap.set p none) c.prevp rest := by
          refine hrest.congr ?_
          intro q hq c2 hc2
          refine ⟨c2, ?_, rfl, rfl⟩
          rw [deref_set]
          have := hlt q hq
          simp [show p ≠ q.1 by omega, hc2]
        obtain ⟨s1, h1, h2, h3, h4, h5, h6, h7, h8⟩ := ih fuel
          { s with heap := s.heap.set p none,
                   fs := unlink s.fs c.path,
                   trace := s.trace ++
                     (if c.start_addr ≠ 0 then [Event.unmapped c.start_addr c.size] else []) ++
                     (if c.fd ≥ 0 then [Event.closed c.fd] else []) ++
                     [Event.unlinked c.path, Event.freed p] }
          c.prevp hch2 hfuel
        refine ⟨s1, h1, ?_, h3, h4, h5, ?_, ?_, ?_⟩
        · simpa using h2
        · simpa using h6
        · rw [h7]
          simp only [created_paths_append]
          split_ifs <;> simp [created_paths]
        · rw [h8]
          simp only [unlinked_paths_append]
          split_ifs <;> simp [unlinked_paths]

theorem teardownInv_fresh (fs0 : List String) (base : String) (k : Nat) :
    TeardownInv fs0 (fresh fs0 base k) :=
  ⟨[], Chain.nil, rfl, List.nodup_nil, by simp, by
    intro p c hp
    simp [fresh, init_memory] at hp, by simp [fresh, init_memory, boot, created_paths, unlinked_paths]⟩

theorem teardownInv_step {CHUNK : Nat} {sys : Sys} {s s1 : State} {n : Nat}
    {r : Option Nat} {fs0 : List String}
    (h : file_malloc CHUNK sys s n = some (r, s1)) (hsys : sys.malloc_record = true)
    (hI : TeardownInv fs0 s) : TeardownInv fs0 s1 := by
  obtain ⟨l, hch, hfs, hnd, hdis, hnext, hperm⟩ := hI
  rcases file_malloc_cases h with hfail | ⟨p, c, hn, hp, hc, hle, -, rfl⟩ |
    ⟨base, addr, fd, heap1, hn, hg, hcap, hb, hpath, h0, hoff, hrec, hm, hl, -, rfl⟩
  · obtain ⟨-, e1, -, e3, -, -, -, e7, -, e9⟩ := hfail
    have hcur : s1.mem.currentp = s.mem.currentp := by
      rcases e7 with e7 | e7
      · exact e7
      · rw [hsys] at e7
        simp at e7
    refine ⟨l, by rw [e1, hcur]; exact hch, by rw [e3]; exact hfs, hnd, hdis, ?_, ?_⟩
    · rw [e1, hcur]
      exact hnext
    · rcases e9 with e9 | ⟨path, fd, e9⟩
      · rw [e9]
        exact hperm
      · rw [e9]
        simp only [created_paths_append, unlinked_paths_append, created_paths,
          unlinked_paths, List.append_nil]
        have := hperm.append_right [path]
        refine this.trans ?_
        simp only [List.append_assoc]
        exact List.Perm.append_left _ List.perm_append_comm
  · refine ⟨l, ?_, hfs, hnd, hdis, ?_, hperm⟩
    · refine hch.congr ?_
      intro q _ c2 hc2
      simp only [deref_set]
      by_cases hpq : p = q.1
      · rw [← hpq] at hc2
        rw [hc] at hc2
        simp only [Option.some.injEq] at hc2
        subst hc2
        simp [← hpq, deref_lt hc]
      · simp [hpq, hc2]
    · intro p2 c2 hp2 hc2
      simp only at hp2
      rw [hp] at hp2
      simp only [Option.some.injEq] at hp2
      subst hp2
      simp [deref_set, deref_lt hc] at hc2
      rw [← hc2]
      exact hnext p c hp hc
  · have hlen := link_prev_length hl
    refine ⟨(s.heap.length, chunk_path base s.mem.next_chunk_index) :: l, ?_, ?_, ?_, ?_, ?_, ?_⟩
    · have hnew := deref_append_self heap1
        { path := chunk_path base s.mem.next_chunk_index, fd := fd,
          size := (needed_chunks_of CHUNK (aligned_size_of n) * CHUNK) % SIZE_MOD,
          start_addr := addr,
          next_free_offset := (0 + aligned_size_of n) % SIZE_MOD,
          ref_count := 0 + 1, nextp := none, prevp := s.mem.currentp }
      rw [hlen] at hnew
      refine Chain.cons s.heap.length _ l hnew hch.lt_length ?_
      refine hch.congr ?_
      intro q hq c2 hc2
      obtain ⟨c3, hc3, e3⟩ := (link_prev_deref hl).2 c2 hc2
      refine ⟨c3, ?_, by rw [e3], by rw [e3]⟩
      simp only [deref_append_one, hlen, hch.lt_length q hq, if_true]
      exact hc3
    · simp [hfs]
    · simp only [List.map_cons, List.nodup_cons]
      refine ⟨?_, hnd⟩
      intro hmem
      exact hpath (by rw [hfs]; simp [hmem])
    · intro x hx
      simp only [List.map_cons, List.mem_cons] at hx
      rcases hx with rfl | hx
      · intro hmem
        exact hpath (by rw [hfs]; simp [hmem])
      · exact hdis x hx
    · intro p2 c2 hp2 hc2
      simp only [Option.some.injEq] at hp2
      subst hp2
      simp only [deref_append_one, hlen, lt_irrefl, if_false, if_true, Option.some.injEq] at hc2
      rw [← hc2]
    · simp only [created_paths_append, unlinked_paths_append, created_paths,
        unlinked_paths, List.append_nil, List.map_cons]
      have := hperm.append_right [chunk_path base s.mem.next_chunk_index]
      refine this.trans ?_
      simp only [List.append_assoc]
      refine List.Perm.append_left _ ?_
      exact List.perm_append_comm

theorem fastfw_list_last {heap : List (Option file_memory)} {cur : Option Nat} (fuel : Nat)
    (h : ∀ p c, cur = some p → deref heap p = some c → c.nextp = none)
    (hv : ∀ p, cur = some p → ∃ c, deref heap p = some c) :
    fastfw_list heap (fuel + 1) cur = some cur := by
  cases cur with
  | none => simp [fastfw_list]
  | some p =>
    obtain ⟨c, hc⟩ := hv p rfl
    simp [fastfw_list, hc, h p c rfl hc]

/-! ## The cap on the number of chunks -/

theorem walk_prev_length_le {heap : List (Option file_memory)}
    (hprev : ∀ p c, deref heap p = some c → ∀ q, c.prevp = some q → q < p) :
    ∀ (fuel p : Nat), (walk_prev heap fuel (some p)).length ≤ p + 1 := by
  intro fuel
  induction fuel with
  | zero => intro p; simp [walk_prev]
  | succ fuel ih =>
    intro p
    simp only [walk_prev, List.length_cons]
    cases hc : deref heap p with
    | none => simp
    | some c =>
      cases hq : c.prevp with
      | none =>
        have : walk_prev heap fuel none = [] := by cases fuel <;> rfl
        simp [hq, this]
      | some q =>
        have h1 := ih q
        have h2 := hprev p c hc q hq
        simp only [hq]
        omega

theorem capInv_step {CHUNK : Nat} {sys : Sys} {s s1 : State} {n k : Nat}
    {r : Option Nat} (hk : k < 2 ^ 63)
    (h : file_malloc CHUNK sys s n = some (r, s1)) (hI : CapInv k s) : CapInv k s1 := by
  obtain ⟨hlen, hmax, hcap, hprev, hcur⟩ := hI
  have hprev1 : ∀ p c, deref s1.heap p = some c → ∀ q, c.prevp = some q → q < p := by
    intro p c1 hc1 q hq
    rcases file_malloc_records h p c1 hc1 with ⟨c, hc, e⟩ | ⟨c, hc, -, -, -, e⟩ |
      ⟨hp, -, -, -, -, -, -, -, hpr, -⟩
    · rw [e] at hq
      exact hprev p c hc q hq
    · rw [e] at hq
      exact hprev p c hc q hq
    · rw [hpr] at hq
      rw [hp]
      exact hcur q hq
  rcases file_malloc_cases h with hfail | ⟨p, c, hn, hp, hc, hle, -, rfl⟩ |
    ⟨base, addr, fd, heap1, hn, hg, hcp, hb, hpath, h0, hoff, hrec, hm, hl, -, rfl⟩
  · obtain ⟨-, e1, -, -, -, e5, e6, e7, -, -⟩ := hfail
    refine ⟨by rw [e1, e5]; exact hlen, by rw [e6]; exact hmax,
      by rw [e1]; exact hcap, hprev1, ?_⟩
    intro p hp
    rw [e1]
    rcases e7 with e7 | ⟨-, e7⟩
    · exact hcur p (by rw [← e7]; exact hp)
    · rw [e7] at hp
      simp at hp
  · refine ⟨by simpa using hlen, hmax, by simpa using hcap, hprev1, ?_⟩
    intro p2 hp2
    simpa using hcur p2 hp2
  · have hl1 := link_prev_length hl
    refine ⟨by simp [hl1, hlen], hmax, ?_, hprev1, ?_⟩
    · intro hk0
      have hle := hcap hk0
      rw [needed_mul_mod] at h0 hoff
      have hneed : 0 < needed_chunks_of CHUNK (aligned_size_of n) := by
        rcases Nat.eq_zero_or_pos (needed_chunks_of CHUNK (aligned_size_of n)) with h1 | h1
        · rw [h1] at h0; simp at h0
        · exact h1
      have hC : 0 < CHUNK := by
        rcases Nat.eq_zero_or_pos CHUNK with h1 | h1
        · rw [h1] at h0; simp at h0
        · exact h1
      have hneed2 : needed_chunks_of CHUNK (aligned_size_of n) ≤ OFF_MAX + 1 :=
        le_trans (Nat.le_mul_of_pos_right _ hC) hoff
      have hcp2 : (s.mem.next_chunk_index + needed_chunks_of CHUNK (aligned_size_of n))
          % SIZE_MOD ≤ k := by
        by_contra hgt
        exact hcp ⟨by rw [hmax]; exact hk0, by rw [hmax]; omega⟩
      simp only [SIZE_MOD, OFF_MAX] at *
      simp only [List.length_append, List.length_singleton, hl1]
      omega
    · intro p2 hp2
      simp only [Option.some.injEq] at hp2
      simp [hl1, ← hp2]

/-- Under a cap `0 < k < 2 ^ 63` no run creates more than `k` chunks: neither
the arena nor the chunk list ever holds more than `k` records. -/
theorem cap_never_exceeded (CHUNK : Nat) (fs0 : List String) (base : String) (k : Nat)
    (hk0 : 0 < k) (hk : k < 2 ^ 63) (calls : List (Sys × Nat)) (rs : List (Option Nat))
    (s : State) (h : run CHUNK (fresh fs0 base k) calls = some (rs, s)) :
    s.heap.length ≤ k ∧ (chunk_list s).length ≤ k ∧
      s.heap.length = s.mem.next_chunk_index := by
  obtain ⟨hlen, -, hcap, hprev, hcur⟩ := (run_induction (CapInv k) (fun _ => True)
    (fun _ => True) (fun s sys n r s1 _ hP hf => ⟨capInv_step hk hf hP, trivial⟩)
    calls (fresh fs0 base k) rs s
    ⟨rfl, rfl, fun _ => Nat.zero_le _, by
      intro p c hc
      simp [fresh_heap, deref_nil] at hc, by
      intro p hp
      simp [fresh, init_memory] at hp⟩
    (fun _ _ => trivial) h).1
  refine ⟨hcap hk0, ?_, hlen⟩
  unfold chunk_list
  cases hp : s.mem.currentp with
  | none => simp [walk_prev]
  | some p =>
    have h1 := walk_prev_length_le hprev (s.heap.length + 1) p
    have h2 := hcur p hp
    have h3 := hcap hk0
    omega

/-- Scenario S3: under a cap of 2 chunks, requests of
`4096 - FILE_MALLOC_HEADER_SIZE - 8` bytes succeed twice, creating `/tmp/fm.0`
and `/tmp/fm.1`; the third returns `NULL` with `ENOMEM` and both chunks stay. -/
theorem S3_cap_exhaustion :
    (run 4096 (fresh [] "/tmp/fm" 2)
        [(sys_ok 3 4096, 4096 - 8 - 8), (sys_ok 4 65536, 4096 - 8 - 8),
          (sys_ok 5 131072, 4096 - 8 - 8)]).map
        (fun r => (r.1, r.2.errno, r.2.fs, chunk_list r.2, r.2.mem.next_chunk_index)) =
      some ([some 4104, some 65544, none], ENOMEM, ["/tmp/fm.1", "/tmp/fm.0"], [1, 0], 2) := by
  decide

/-- A call that returns `NULL` while the allocation of the chunk record does not
fail changes nothing but `errno` and the log of system calls: the manager, the
chunk records, the mapped words and the file system are as before. -/
theorem failed_call_restores_state {CHUNK : Nat} {sys : Sys} {s s1 : State} {n : Nat}
    (hrec : sys.malloc_record = true)
    (h : file_malloc CHUNK sys s n = some (none, s1)) :
    s1.mem = s.mem ∧ s1.heap = s.heap ∧ s1.words = s.words ∧ s1.fs = s.fs ∧
      (s1.errno = EINVAL ∨ s1.errno = ENOMEM) := by
  rcases file_malloc_cases h with hfail | ⟨p, c, -, -, -, -, hr, -⟩ |
    ⟨base, addr, fd, heap1, -, -, -, -, -, -, -, -, -, -, hr, -⟩
  · obtain ⟨-, e1, e2, e3, e4, e5, e6, e7, e8, -⟩ := hfail
    refine ⟨?_, e1, e2, e3, e8⟩
    have hcur : s1.mem.currentp = s.mem.currentp := by
      rcases e7 with e7 | ⟨e7, -⟩
      · exact e7
      · rw [hrec] at e7
        simp at e7
    cases hm1 : s1.mem
    cases hm : s.mem
    simp only [hm1, hm] at e4 e5 e6 hcur
    simp [e4, e5, e6, hcur]
  · simp at hr
  · simp at hr

/-! ## Names of the chunk files -/

/-- The buffer of line 289 is large enough: `snprintf` truncates nothing, and
the path of ordinal `j` is the base path, a dot, and `j` in decimal. -/
theorem chunk_path_eq (base : String) (j : Nat) :
    chunk_path base j = base ++ "." ++ toString j := by
  unfold chunk_path get_num_digits
  have hlen : (base ++ "." ++ toString j).data.length =
      base.length + 1 + (Nat.toDigits 10 j).length + 1 - 1 := by
    simp only [String.data_append, List.length_append, String.length]
    rfl
  simp only
  rw [← hlen, List.take_length]

theorem nameInv_fresh (fs0 : List String) (base : String) (k : Nat) :
    NameInv base (fresh fs0 base k) := by
  refine ⟨rfl, rfl, ?_, ?_⟩
  · intro j hj
    simp [fresh_heap] at hj
  · intro i j ci cj hi
    simp [fresh_heap, deref_nil] at hi

theorem nameInv_step {CHUNK : Nat} {sys : Sys} {s s1 : State} {n : Nat}
    {r : Option Nat} {base : String}
    (h : file_malloc CHUNK sys s n = some (r, s1)) (hI : NameInv base s) :
    NameInv base s1 := by
  obtain ⟨hbase, hlen, hrec, hdist⟩ := hI
  rcases file_malloc_cases h with hfail | ⟨p, c, hn, hp, hc, hle, -, rfl⟩ |
    ⟨base2, addr, fd, heap1, hn, hg, hcp, hb, hpath, h0, hoff, hmrec, hm, hl, -, rfl⟩
  · obtain ⟨-, e1, -, e3, e4, e5, -, -, -, -⟩ := hfail
    refine ⟨e4.trans hbase, by rw [e1, e5]; exact hlen, ?_, ?_⟩
    · rw [e1, e3]
      exact hrec
    · rw [e1]
      exact hdist
  · have hpl := deref_lt hc
    have hset : ∀ j, ∃ f : file_memory → file_memory, (∀ d, (f d).path = d.path) ∧
        ∀ d, deref s.heap j = some d →
          deref (s.heap.set p (some { c with
            next_free_offset := (c.next_free_offset + aligned_size_of n) % SIZE_MOD,
            ref_count := c.ref_count + 1 })) j = some (f d) := by
      intro j
      by_cases hpj : p = j
      · subst hpj
        refine ⟨fun d => { d with
            next_free_offset := (d.next_free_offset + aligned_size_of n) % SIZE_MOD,
            ref_count := d.ref_count + 1 }, fun d => rfl, ?_⟩
        intro d hd
        rw [hc] at hd
        simp only [Option.some.injEq] at hd
        subst hd
        simp [deref_set, hpl]
      · refine ⟨id, fun d => rfl, ?_⟩
        intro d hd
        simp [deref_set, hpj, hd]
    refine ⟨hbase, by simpa using hlen, ?_, ?_⟩
    · intro j hj
      simp only [List.length_set] at hj
      obtain ⟨d, hd, hdp, hdf⟩ := hrec j hj
      obtain ⟨f, hf, hfd⟩ := hset j
      exact ⟨f d, hfd d hd, by rw [hf]; exact hdp, by rw [hf]; exact hdf⟩
    · intro i j ci cj hi hj hij
      have hil : i < s.heap.length := by simpa using deref_lt hi
      have hjl : j < s.heap.length := by simpa using deref_lt hj
      obtain ⟨di, hdi, -, -⟩ := hrec i hil
      obtain ⟨dj, hdj, -, -⟩ := hrec j hjl
      obtain ⟨fi, hfi, hfdi⟩ := hset i
      obtain ⟨fj, hfj, hfdj⟩ := hset j
      have ei := (hfdi di hdi).symm.trans hi
      have ej := (hfdj dj hdj).symm.trans hj
      simp only [Option.some.injEq] at ei ej
      rw [← ei, ← ej, hfi, hfj]
      exact hdist i j di dj hdi hdj hij
  · have hl1 := link_prev_length hl
    rw [hbase] at hb
    simp only [Option.some.injEq] at hb
    subst hb
    have hold : ∀ j, j < s.heap.length → ∀ d1,
        deref (heap1 ++ [some
          { path := chunk_path base s.mem.next_chunk_index, fd := fd,
            size := (needed_chunks_of CHUNK (aligned_size_of n) * CHUNK) % SIZE_MOD,
            start_addr := addr,
            next_free_offset := (0 + aligned_size_of n) % SIZE_MOD,
            ref_count := 0 + 1, nextp := none, prevp := s.mem.currentp }]) j = some d1 →
        ∃ d, deref s.heap j = some d ∧ d1.path = d.path := by
      intro j hj d1 hd1
      simp only [deref_append_one, hl1, hj, if_true] at hd1
      obtain ⟨d, hd, e⟩ := (link_prev_deref hl).1 d1 hd1
      exact ⟨d, hd, by rw [e]⟩
    have hnew := deref_append_self heap1
      { path := chunk_path base s.mem.next_chunk_index, fd := fd,
        size := (needed_chunks_of CHUNK (aligned_size_of n) * CHUNK) % SIZE_MOD,
        start_addr := addr,
        next_free_offset := (0 + aligned_size_of n) % SIZE_MOD,
        ref_count := 0 + 1, nextp := none, prevp := s.mem.currentp }
    rw [hl1] at hnew
    refine ⟨hbase, by simp [hl1, hlen], ?_, ?_⟩
    · intro j hj
      simp only [List.length_append, List.length_singleton, hl1] at hj
      by_cases hjl : j < s.heap.length
      · obtain ⟨d, hd, hdp, hdf⟩ := hrec j hjl
        obtain ⟨d1, hd1, e⟩ := (link_prev_deref hl).2 d hd
        refine ⟨d1, ?_, ?_, ?_⟩
        · simp only [deref_append_one, hl1, hjl, if_true]
          exact hd1
        · rw [e]
          exact hdp
        · rw [e]
          exact List.mem_cons_of_mem _ hdf
      · have hje : j = s.heap.length := by omega
        subst hje
        exact ⟨_, hnew, by rw [hlen], by simp⟩
    · intro i j ci cj hi hj hij
      have hil := deref_lt hi
      have hjl := deref_lt hj
      simp only [List.length_append, List.length_singleton, hl1] at hil hjl
      by_cases hi2 : i < s.heap.length
      · obtain ⟨di, hdi, ei⟩ := hold i hi2 ci hi
        by_cases hj2 : j < s.heap.length
        · obtain ⟨dj, hdj, ej⟩ := hold j hj2 cj hj
          rw [ei, ej]
          exact hdist i j di dj hdi hdj hij
        · have hje : j = s.heap.length := by omega
          subst hje
          rw [hnew] at hj
          simp only [Option.some.injEq] at hj
          obtain ⟨d, hd, -, hdf⟩ := hrec i hi2
          rw [hdi] at hd
          simp only [Option.some.injEq] at hd
          subst hd
          rw [ei, ← hj]
          intro e
          have e2 : di.path = chunk_path base s.mem.next_chunk_index := e
          exact hpath (by rw [← e2]; exact hdf)
      · have hie : i = s.heap.length := by omega
        subst hie
        have hj2 : j < s.heap.length := by omega
        obtain ⟨dj, hdj, ej⟩ := hold j hj2 cj hj
        rw [hnew] at hi
        simp only [Option.some.injEq] at hi
        obtain ⟨d, hd, -, hdf⟩ := hrec j hj2
        rw [hdj] at hd
        simp only [Option.some.injEq] at hd
        subst hd
        rw [ej, ← hi]
        intro e
        have e2 : chunk_path base s.mem.next_chunk_index = dj.path := e
        exact hpath (by rw [e2]; exact hdf)

/-! ## What holds beside the defects -/

/-- Teardown resets `currentp`, `next_chunk_index` and `max_chunks` and keeps
`base_path`; a second teardown walks no chunk: it only adds the release of the
base path to the log when the pointer is not `NULL`. -/
theorem uninit_memory_again {s s1 : State} (h : uninit_memory s = some s1) :
    s1.mem.currentp = none ∧ s1.mem.next_chunk_index = 0 ∧ s1.mem.max_chunks = 0 ∧
    s1.mem.base_path = s.mem.base_path ∧
    uninit_memory s1 = some { s1 with
      trace := s1.trace ++
        (if s1.mem.base_path ≠ none then [Event.freed_base_path] else []) } := by
  unfold uninit_memory at h
  cases hu : uninit_file_memories s s.mem.currentp with
  | none => simp [hu] at h
  | some s2 =>
    simp only [hu, Option.some.injEq] at h
    have hmem : s2.mem.base_path = s.mem.base_path := by
      unfold uninit_file_memories at hu
      cases hf : fastfw_list s.heap (s.heap.length + 1) s.mem.currentp with
      | none => simp [hf] at hu
      | some last =>
        simp only [hf] at hu
        have key : ∀ (fuel : Nat) (t t2 : State) (cur : Option Nat),
            uninit_loop fuel t cur = some t2 → t2.mem = t.mem := by
          intro fuel
          induction fuel with
          | zero =>
            intro t t2 cur ht
            cases cur with
            | none => simp [uninit_loop] at ht; rw [← ht]
            | some p => simp [uninit_loop] at ht
          | succ fuel ih =>
            intro t t2 cur ht
            cases cur with
            | none => simp [uninit_loop] at ht; rw [← ht]
            | some p =>
              simp only [uninit_loop] at ht
              cases hc : deref t.heap p with
              | none => simp [hc] at ht
              | some c =>
                simp only [hc] at ht
                exact (ih _ t2 _ ht).trans rfl
        rw [key _ _ _ _ hu]
    subst h
    refine ⟨rfl, rfl, rfl, hmem, ?_⟩
    simp [uninit_memory, uninit_file_memories, fastfw_list, uninit_loop]

/-- What a successful call does, in `size_t` arithmetic: with `p` the current
chunk after the grow-or-reuse step and `o` its cursor then, the call returns
`start_addr + o + FILE_MALLOC_HEADER_SIZE`, sets the cursor to
`(o + aligned_size) mod 2 ^ 64`, counts one more reference, and leaves the
size and the mapping of that chunk, and every field but `nextp` of every other
chunk, as they were. -/
theorem successful_call_frame {CHUNK : Nat} {sys : Sys} {s s1 : State} {n ptr : Nat}
    (h : file_malloc CHUNK sys s n = some (some ptr, s1)) :
    ∃ p c1 o r0, s1.mem.currentp = some p ∧ deref s1.heap p = some c1 ∧
      ptr = c1.start_addr + o + FILE_MALLOC_HEADER_SIZE ∧
      c1.next_free_offset = (o + aligned_size_of n) % SIZE_MOD ∧
      c1.ref_count = r0 + 1 ∧
      ((s.mem.currentp = some p ∧ ∃ c, deref s.heap p = some c ∧
          c.next_free_offset = o ∧ c.ref_count = r0 ∧ c.size = c1.size ∧
          c.start_addr = c1.start_addr) ∨
        (p = s.heap.length ∧ o = 0 ∧ r0 = 0)) ∧
      ∀ q d1, q ≠ p → deref s1.heap q = some d1 →
        ∃ d, deref s.heap q = some d ∧ d1 = { d with nextp := d1.nextp } := by
  rcases file_malloc_cases h with hfail | ⟨p, c, hn, hp, hc, hle, hr, rfl⟩ |
    ⟨base, addr, fd, heap1, hn, hg, hcap, hb, hfs, h0, hoff, hrec, hm, hl, hr, rfl⟩
  · have := hfail.1
    simp at this
  · simp only [Option.some.injEq] at hr
    refine ⟨p, { c with
        next_free_offset := (c.next_free_offset + aligned_size_of n) % SIZE_MOD,
        ref_count := c.ref_count + 1 }, c.next_free_offset, c.ref_count, hp, ?_, hr, rfl, rfl,
      Or.inl ⟨hp, c, hc, rfl, rfl, rfl, rfl⟩, ?_⟩
    · simp [deref_set, deref_lt hc]
    · intro q d1 hq hd1
      simp only [deref_set] at hd1
      simp [Ne.symm hq] at hd1
      exact ⟨d1, hd1, rfl⟩
  · simp only [Option.some.injEq] at hr
    have hl1 := link_prev_length hl
    have hnew := deref_append_self heap1
      { path := chunk_path base s.mem.next_chunk_index, fd := fd,
        size := (needed_chunks_of CHUNK (aligned_size_of n) * CHUNK) % SIZE_MOD,
        start_addr := addr,
        next_free_offset := (0 + aligned_size_of n) % SIZE_MOD,
        ref_count := 0 + 1, nextp := none, prevp := s.mem.currentp }
    rw [hl1] at hnew
    refine ⟨s.heap.length, _, 0, 0, rfl, hnew, hr, rfl, rfl, Or.inr ⟨rfl, rfl, rfl⟩, ?_⟩
    intro q d1 hq hd1
    have hql := deref_lt hd1
    simp only [List.length_append, List.length_singleton, hl1] at hql
    have hq2 : q < s.heap.length := by omega
    simp only [deref_append_one, hl1, hq2, if_true] at hd1
    exact (link_prev_deref hl).1 d1 hd1

/-- The decision of lines 275 to 278 in `size_t` arithmetic: when the wrapped
sum `next_free_offset + aligned_size` is at most the size of the current chunk,
the call cannot fail; it returns a pointer into that chunk and neither the
manager nor the number of records changes. -/
theorem reuse_cannot_fail {CHUNK : Nat} {sys : Sys} {s : State} {n : Nat} (hn : n ≠ 0)
    (hg : must_grow s (aligned_size_of n) = some false) :
    ∃ ptr s1, file_malloc CHUNK sys s n = some (some ptr, s1) ∧ s1.mem = s.mem ∧
      s1.heap.length = s.heap.length ∧ s1.fs = s.fs ∧ s1.errno = s.errno := by
  unfold must_grow at hg
  cases hp : s.mem.currentp with
  | none => simp [hp] at hg
  | some p =>
    cases hc : deref s.heap p with
    | none => simp [hp, hc] at hg
    | some c =>
      have hg2 : must_grow s (aligned_size_of n) = some false := by
        unfold must_grow
        rw [hp] at hg ⊢
        exact hg
      simp only [file_malloc, hn, if_false, hg2, file_malloc_serve, hp, hc]
      exact ⟨_, _, rfl, rfl, by simp, rfl, rfl⟩

theorem link_prev_nextp {heap heap1 : List (Option file_memory)} {prev : Option Nat}
    {p q : Nat} {c c1 : file_memory} (h : link_prev heap prev p = some heap1)
    (hc : deref heap q = some c) (hc1 : deref heap1 q = some c1) :
    c1.nextp = (if prev = some q then some p else c.nextp) ∧ c1.prevp = c.prevp := by
  unfold link_prev at h
  cases prev with
  | none =>
    simp at h
    subst h
    rw [hc] at hc1
    simp at hc1
    subst hc1
    simp
  | some q0 =>
    cases hd : deref heap q0 with
    | none => simp [hd] at h
    | some d =>
      simp [hd] at h
      subst h
      rw [deref_set] at hc1
      by_cases hq : q0 = q
      · subst hq
        simp [deref_lt hd] at hc1
        rw [hd] at hc
        simp at hc
        subst hc
        simp [← hc1]
      · simp [hq] at hc1
        rw [hc] at hc1
        simp at hc1
        subst hc1
        simp [hq]

theorem listInv_fresh (fs0 : List String) (base : String) (k : Nat) :
    ListInv (fresh fs0 base k) := by
  refine ⟨rfl, rfl, ?_⟩
  intro j hj
  simp [fresh_heap] at hj

theorem listInv_step {CHUNK : Nat} {sys : Sys} {s s1 : State} {n : Nat}
    {r : Option Nat} (h : file_malloc CHUNK sys s n = some (r, s1))
    (hsys : sys.malloc_record = true) (hI : ListInv s) : ListInv s1 := by
  obtain ⟨hlen, hcur, hrec⟩ := hI
  rcases file_malloc_cases h with hfail | ⟨p, c, hn, hp, hc, hle, -, rfl⟩ |
    ⟨base, addr, fd, heap1, hn, hg, hcp, hb, hpath, h0, hoff, hmrec, hm, hl, -, rfl⟩
  · obtain ⟨-, e1, -, -, -, e5, -, e7, -, -⟩ := hfail
    have hc2 : s1.mem.currentp = s.mem.currentp := by
      rcases e7 with e7 | ⟨e7, -⟩
      · exact e7
      · rw [hsys] at e7
        simp at e7
    refine ⟨by rw [e1, e5]; exact hlen, by rw [e1, hc2]; exact hcur, ?_⟩
    rw [e1]
    exact hrec
  · refine ⟨by simpa using hlen, by simpa using hcur, ?_⟩
    intro j hj
    simp only [List.length_set] at hj ⊢
    obtain ⟨d, hd, hdp, hdn⟩ := hrec j hj
    by_cases hpj : p = j
    · subst hpj
      rw [hc] at hd
      simp only [Option.some.injEq] at hd
      subst hd
      exact ⟨{ c with
          next_free_offset := (c.next_free_offset + aligned_size_of n) % SIZE_MOD,
          ref_count := c.ref_count + 1 }, by simp [deref_set, deref_lt hc], hdp, hdn⟩
    · exact ⟨d, by simp [deref_set, hpj, hd], hdp, hdn⟩
  · have hl1 := link_prev_length hl
    have hnew := deref_append_self heap1
      { path := chunk_path base s.mem.next_chunk_index, fd := fd,
        size := (needed_chunks_of CHUNK (aligned_size_of n) * CHUNK) % SIZE_MOD,
        start_addr := addr,
        next_free_offset := (0 + aligned_size_of n) % SIZE_MOD,
        ref_count := 0 + 1, nextp := none, prevp := s.mem.currentp }
    rw [hl1] at hnew
    refine ⟨by simp [hl1, hlen], by simp [hl1], ?_⟩
    intro j hj
    simp only [List.length_append, List.length_singleton, hl1] at hj ⊢
    by_cases hjl : j < s.heap.length
    · obtain ⟨d, hd, hdp, hdn⟩ := hrec j hjl
      obtain ⟨d1, hd1, -⟩ := (link_prev_deref hl).2 d hd
      obtain ⟨en, ep⟩ := link_prev_nextp hl hd hd1
      refine ⟨d1, ?_, by rw [ep]; exact hdp, ?_⟩
      · simp only [deref_append_one, hl1, hjl, if_true]
        exact hd1
      · rw [en, hcur, hdn]
        have h3 : ¬ j + 1 = s.heap.length + 1 := by omega
        have h1 : ¬ s.heap.length = 0 := by omega
        simp only [h1, h3, if_false, Option.some.injEq]
        by_cases hlast : j + 1 = s.heap.length
        · have h2 : s.heap.length - 1 = j := by omega
          simp only [h2, if_true, hlast]
        · have h2 : ¬ s.heap.length - 1 = j := by omega
          simp only [h2, hlast, if_false]
    · have hje : j = s.heap.length := by omega
      subst hje
      refine ⟨_, hnew, ?_, by simp⟩
      simp only
      rw [hcur]

theorem countdown_length (p : Nat) : (countdown p).length = p + 1 := by
  induction p with
  | zero => rfl
  | succ p ih => simp [countdown, ih]

theorem mem_countdown (p j : Nat) : j ∈ countdown p ↔ j ≤ p := by
  induction p with
  | zero => simp [countdown]
  | succ p ih =>
    simp only [countdown, List.mem_cons, ih]
    omega

theorem countdown_nodup (p : Nat) : (countdown p).Nodup := by
  induction p with
  | zero => simp [countdown]
  | succ p ih =>
    simp only [countdown, List.nodup_cons, mem_countdown]
    exact ⟨by omega, ih⟩

theorem countdown_sorted (p : Nat) : (countdown p).Pairwise (fun a b => b < a) := by
  induction p with
  | zero => simp [countdown]
  | succ p ih =>
    simp only [countdown, List.pairwise_cons, mem_countdown]
    exact ⟨fun b hb => by omega, ih⟩

theorem walk_prev_countdown {heap : List (Option file_memory)}
    (hrec : ∀ j, j < heap.length → ∃ c, deref heap j = some c ∧
      c.prevp = (if j = 0 then none else some (j - 1))) :
    ∀ (p fuel : Nat), p < heap.length → p < fuel →
      walk_prev heap fuel (some p) = countdown p := by
  intro p
  induction p with
  | zero =>
    intro fuel hp hf
    obtain ⟨c, hc, hcp⟩ := hrec 0 hp
    cases fuel with
    | zero => omega
    | succ fuel =>
      simp only [walk_prev, hc, countdown]
      simp only [if_true] at hcp
      rw [hcp]
      cases fuel <;> rfl
  | succ p ih =>
    intro fuel hp hf
    obtain ⟨c, hc, hcp⟩ := hrec (p + 1) hp
    cases fuel with
    | zero => omega
    | succ fuel =>
      simp only [walk_prev, hc, countdown]
      simp only [Nat.add_one_ne_zero, if_false, Nat.add_sub_cancel] at hcp
      rw [hcp, ih fuel (by omega) (by omega)]

/-- In a run where no allocation of a chunk record fails, the chunk list is in
order: `next_chunk_index` is the number of chunks created and the length of the
list reachable from `mem.currentp`; `mem.currentp` is the newest chunk and has
no successor; following `prevp` from it visits every chunk once, newest first,
and ends at a chunk without predecessor; and the `nextp` of the predecessor of
a chunk is that chunk. -/
theorem list_in_order (CHUNK : Nat) (fs0 : List String) (base : String) (k : Nat)
    (calls : List (Sys × Nat)) (rs : List (Option Nat)) (s : State)
    (hrec : ∀ c ∈ calls, c.1.malloc_record = true)
    (h : run CHUNK (fresh fs0 base k) calls = some (rs, s)) :
    s.mem.next_chunk_index = s.heap.length ∧
    (chunk_list s).length = s.mem.next_chunk_index ∧
    (∀ j, j ∈ chunk_list s ↔ j < s.heap.length) ∧
    (chunk_list s).Nodup ∧ (chunk_list s).Pairwise (fun a b => b < a) ∧
    (∀ j, j < s.heap.length → ∃ c, deref s.heap j = some c) ∧
    (∀ p c, s.mem.currentp = some p → deref s.heap p = some c →
      p + 1 = s.heap.length ∧ c.nextp = none) ∧
    (∀ c, deref s.heap 0 = some c → c.prevp = none) ∧
    (∀ j c q, deref s.heap j = some c → c.prevp = some q →
      q + 1 = j ∧ ∃ d, deref s.heap q = some d ∧ d.nextp = some j) := by
  obtain ⟨hlen, hcur, hshape⟩ := (run_induction ListInv (fun _ => True)
    (fun sys => sys.malloc_record = true)
    (fun s sys n r s1 hsys hP hf => ⟨listInv_step hf hsys hP, trivial⟩)
    calls (fresh fs0 base k) rs s (listInv_fresh fs0 base k) hrec h).1
  have hwalk := @walk_prev_countdown s.heap
    (fun j hj => by
      obtain ⟨c, hc, hp, -⟩ := hshape j hj
      exact ⟨c, hc, hp⟩)
  have hlist : chunk_list s =
      (if s.heap.length = 0 then [] else countdown (s.heap.length - 1)) := by
    unfold chunk_list
    rw [hcur]
    by_cases h0 : s.heap.length = 0
    · simp [h0, walk_prev]
    · simp only [h0, if_false]
      exact hwalk _ _ (by omega) (by omega)
  refine ⟨hlen.symm, ?_, ?_, ?_, ?_, ?_, ?_, ?_, ?_⟩
  · rw [hlist, ← hlen]
    by_cases h0 : s.heap.length = 0
    · simp [h0]
    · simp only [h0, if_false, countdown_length]
      omega
  · intro j
    rw [hlist]
    by_cases h0 : s.heap.length = 0
    · simp [h0]
    · simp only [h0, if_false, mem_countdown]
      omega
  · rw [hlist]
    by_cases h0 : s.heap.length = 0
    · simp [h0]
    · simp only [h0, if_false]
      exact countdown_nodup _
  · rw [hlist]
    by_cases h0 : s.heap.length = 0
    · simp [h0]
    · simp only [h0, if_false]
      exact countdown_sorted _
  · intro j hj
    obtain ⟨c, hc, -⟩ := hshape j hj
    exact ⟨c, hc⟩
  · intro p c hp hc
    have hpl := deref_lt hc
    rw [hcur] at hp
    have h0 : ¬ s.heap.length = 0 := by omega
    simp only [h0, if_false, Option.some.injEq] at hp
    obtain ⟨c2, hc2, -, hn⟩ := hshape p hpl
    rw [hc] at hc2
    simp only [Option.some.injEq] at hc2
    subst hc2
    have hp1 : p + 1 = s.heap.length := by omega
    exact ⟨hp1, by simpa [hp1] using hn⟩
  · intro c hc
    obtain ⟨c2, hc2, hp, -⟩ := hshape 0 (deref_lt hc)
    rw [hc] at hc2
    simp only [Option.some.injEq] at hc2
    subst hc2
    simpa using hp
  · intro j c q hc hq
    have hjl := deref_lt hc
    obtain ⟨c2, hc2, hp, -⟩ := hshape j hjl
    rw [hc] at hc2
    simp only [Option.some.injEq] at hc2
    subst hc2
    rw [hq] at hp
    by_cases hj0 : j = 0
    · simp [hj0] at hp
    · simp only [hj0, if_false, Option.some.injEq] at hp
      have hqj : q + 1 = j := by omega
      obtain ⟨d, hd, -, hdn⟩ := hshape q (by omega)
      refine ⟨hqj, d, hd, ?_⟩
      rw [hdn, if_neg (by omega), hqj]

/-- A non-empty new chunk is the smallest multiple of the chunk size that holds
the aligned size it was made for. -/
theorem chunk_size_least (C a : Nat)
    (hs : needed_chunks_of C a * C ≠ 0) : needed_chunks_of C a * C < a + C := by
  have hC : 0 < C := by
    rcases Nat.eq_zero_or_pos C with h | h
    · subst h; simp at hs
    · exact h
  have hlt : (a + C - 1) / C * C < a + C := by
    have h1 := Nat.div_mul_le_self (a + C - 1) C
    omega
  have h2 : round_num a C ≤ (a + C - 1) / C * C := by
    unfold round_num
    exact Nat.mod_le _ _
  have h3 := needed_mul_le C a
  omega

/-- In every state reached from `init_memory`, the size of every chunk is a
positive multiple of the chunk size. -/
theorem chunk_sizes_positive_multiples (CHUNK : Nat) (fs0 : List String) (base : String)
    (k : Nat) (calls : List (Sys × Nat)) (rs : List (Option Nat)) (s : State)
    (h : run CHUNK (fresh fs0 base k) calls = some (rs, s)) :
    ∀ p c, deref s.heap p = some c → ∃ m, 0 < m ∧ c.size = m * CHUNK := by
  refine (run_induction
    (fun s => ∀ p c, deref s.heap p = some c → ∃ m, 0 < m ∧ c.size = m * CHUNK)
    (fun _ => True) (fun _ => True) ?_ calls (fresh fs0 base k) rs s
    (by intro p c hc; simp [fresh_heap, deref_nil] at hc) (fun _ _ => trivial) h).1
  intro s sys n r s1 _ hP hf
  refine ⟨?_, trivial⟩
  intro q c1 hq
  rcases file_malloc_records hf q c1 hq with ⟨c, hc, e⟩ | ⟨c, hc, -, -, -, e⟩ |
    ⟨-, -, h0, -, -, hsz, -⟩
  · rw [e]
    exact hP q c hc
  · rw [e]
    exact hP q c hc
  · refine ⟨needed_chunks_of CHUNK (aligned_size_of n), ?_, hsz⟩
    rcases Nat.eq_zero_or_pos (needed_chunks_of CHUNK (aligned_size_of n)) with h1 | h1
    · rw [h1] at h0
      simp at h0
    · exact h1

/-- A chunk created by a call has the smallest multiple of the chunk size that
is at least the `aligned_size` the call computed. -/
theorem created_chunk_size {CHUNK : Nat} {sys : Sys} {s s1 : State} {n : Nat}
    {r : Option Nat} (h : file_malloc CHUNK sys s n = some (r, s1))
    (hgrow : s1.heap.length = s.heap.length + 1) :
    ∃ c m, deref s1.heap s.heap.length = some c ∧ 0 < m ∧ c.size = m * CHUNK ∧
      aligned_size_of n ≤ c.size ∧ c.size < aligned_size_of n + CHUNK := by
  rcases file_malloc_cases h with hfail | ⟨p, c, hn, hp, hc, hle, -, rfl⟩ |
    ⟨base, addr, fd, heap1, hn, hg, hcap, hb, hfs, h0, hoff, hrec, hm, hl, -, rfl⟩
  · rw [hfail.2.1] at hgrow
    omega
  · simp at hgrow
  · rw [needed_mul_mod] at h0
    have hnew := deref_append_self heap1
      { path := chunk_path base s.mem.next_chunk_index, fd := fd,
        size := (needed_chunks_of CHUNK (aligned_size_of n) * CHUNK) % SIZE_MOD,
        start_addr := addr,
        next_free_offset := (0 + aligned_size_of n) % SIZE_MOD,
        ref_count := 0 + 1, nextp := none, prevp := s.mem.currentp }
    rw [link_prev_length hl] at hnew
    refine ⟨_, needed_chunks_of CHUNK (aligned_size_of n), hnew, ?_, ?_, ?_, ?_⟩
    · rcases Nat.eq_zero_or_pos (needed_chunks_of CHUNK (aligned_size_of n)) with h1 | h1
      · rw [h1] at h0
        simp at h0
      · exact h1
    · simp [needed_mul_mod]
    · simp only [needed_mul_mod]
      exact chunk_size_fits CHUNK _ (aligned_size_of_lt n) h0
    · simp only [needed_mul_mod]
      exact chunk_size_least CHUNK _ h0

/-- Without wrap the aligned size covers the header and the request. -/
theorem aligned_size_covers (n : Nat) (hn : n + FILE_MALLOC_HEADER_SIZE + 7 < SIZE_MOD) :
    n + FILE_MALLOC_HEADER_SIZE ≤ aligned_size_of n ∧
      aligned_size_of n < n + FILE_MALLOC_HEADER_SIZE + PTR_WIDTH := by
  unfold aligned_size_of round_num
  simp only [SIZE_MOD, PTR_WIDTH, FILE_MALLOC_HEADER_SIZE] at *
  omega

/-- When neither the aligned size nor the cursor sum wraps, the `n` bytes of a
successful call lie after the header, inside the range the call consumed and
inside the chunk. -/
theorem user_region_contained {CHUNK : Nat} {sys : Sys} {s s1 : State} {n ptr : Nat}
    (h : file_malloc CHUNK sys s n = some (some ptr, s1))
    (hI : ∀ p c, deref s.heap p = some c → c.next_free_offset ≤ c.size)
    (hn : n + FILE_MALLOC_HEADER_SIZE + 7 < SIZE_MOD)
    (hsum : ∀ p c, s.mem.currentp = some p → deref s.heap p = some c →
      c.next_free_offset + aligned_size_of n < SIZE_MOD) :
    ∃ p c1, s1.mem.currentp = some p ∧ deref s1.heap p = some c1 ∧
      c1.start_addr + FILE_MALLOC_HEADER_SIZE ≤ ptr ∧
      ptr + n ≤ c1.start_addr + c1.next_free_offset ∧
      c1.next_free_offset ≤ c1.size := by
  obtain ⟨p, c1, o, r0, hp, hc1, hptr, hcur, -, hcase, -⟩ := successful_call_frame h
  have hb := cursor_bound_step h hI p c1 hc1
  have hcov := (aligned_size_covers n hn).1
  have ha := aligned_size_of_lt n
  refine ⟨p, c1, hp, hc1, by omega, ?_, hb⟩
  rcases hcase with ⟨hp0, c, hc, ho, -, -, -⟩ | ⟨-, ho, -⟩
  · have := hsum p c hp0 hc
    rw [ho] at this
    rw [Nat.mod_eq_of_lt this] at hcur
    omega
  · subst ho
    rw [Nat.zero_add, Nat.mod_eq_of_lt ha] at hcur
    omega

/-- The body of `file_free` is empty: for every state and every pointer,
`file_free` returns the state it was given, so the manager, the chunk list and
every cursor and reference count are unchanged; a `file_malloc` after it
returns the same pointer and the same state as without it, the cursor of every
chunk is where it was, and so does `uninit_memory`. -/
theorem file_free_changes_nothing (CHUNK : Nat) (sys : Sys) (s : State) (ptr : Option Nat)
    (n : Nat) :
    file_free s ptr = s ∧
    file_malloc CHUNK sys (file_free s ptr) n = file_malloc CHUNK sys s n ∧
    (∀ p, deref (file_free s ptr).heap p = deref s.heap p) ∧
    (∀ p, cursor_of (file_free s ptr) p = cursor_of s p) ∧
    uninit_memory (file_free s ptr) = uninit_memory s :=
  ⟨rfl, rfl, fun _ => rfl, fun _ => rfl, rfl⟩

/-- The `file_free` calls of a sequence have no effect on it: the pointers
returned and the last state are those of the `file_malloc` calls alone. -/
theorem run_calls_ignores_free (CHUNK : Nat) :
    ∀ (calls : List Call) (s : State),
      run_calls CHUNK s calls = run CHUNK s (mallocs_of calls) := by
  intro calls
  induction calls with
  | nil => intro s; rfl
  | cons c rest ih =>
    intro s
    cases c with
    | free ptr => simp only [run_calls, mallocs_of, file_free, ih]
    | malloc sys n =>
      simp only [run_calls, mallocs_of, run]
      cases hf : file_malloc CHUNK sys s n with
      | none => rfl
      | some res =>
        obtain ⟨r, s1⟩ := res
        simp only [ih]

/-! ## The claims -/

/-- C1 (non-overlap; the code fails it): chunks of 4096 bytes mapped at 4096.
After `file_malloc(8)` the first allocation occupies the offsets `[0, 16)` of
chunk 0 and the cursor is 16.  `file_malloc(2 ^ 64 - 16)` has
`aligned_size = 2 ^ 64 - 8`; the sum `next_free_offset + aligned_size` wraps to
8, the test of line 277 lets the request into the chunk, its header is written
at offset 16 and the cursor moves back to 8.  A third `file_malloc(8)` then
gets the offsets `[8, 24)`: its start offset 8 is below the start offset 16 of
the allocation before it, and its range overlaps the first allocation and the
header of the second. -/
theorem C1_overlapping_allocations :
    aligned_size_of 8 = 16 ∧ aligned_size_of (2 ^ 64 - 16) = 2 ^ 64 - 8 ∧
    (run 4096 (fresh [] "/tmp/fm" 0) [(sys_ok 3 4096, 8)]).map
        (fun r => (r.1, cursor_of r.2 0)) = some ([some (4096 + 0 + 8)], some 16) ∧
    (run 4096 (fresh [] "/tmp/fm" 0)
        [(sys_ok 3 4096, 8), (sys_ok 3 4096, 2 ^ 64 - 16)]).map
        (fun r => (r.1, cursor_of r.2 0)) =
      some ([some (4096 + 0 + 8), some (4096 + 16 + 8)], some 8) ∧
    (run 4096 (fresh [] "/tmp/fm" 0)
        [(sys_ok 3 4096, 8), (sys_ok 3 4096, 2 ^ 64 - 16), (sys_ok 3 4096, 8)]).map
        (fun r => (r.1, cursor_of r.2 0, r.2.heap.length)) =
      some ([some (4096 + 0 + 8), some (4096 + 16 + 8), some (4096 + 8 + 8)],
        some 24, 1) := by
  refine ⟨by decide, by decide, by decide, by decide, by decide⟩

/-- C2 (cursor bound): in every state reached from `init_memory` by calls of
`file_malloc`, successful or not, every chunk record has
`0 ≤ next_free_offset ≤ size`; and whenever a call from such a state creates a
chunk, the new chunk is the current one, its size is
`needed_chunks * FILE_MEMORY_CHUNK_SIZE`, and the aligned size that triggered
the creation fits into it. -/
theorem C2_cursor_bound (CHUNK : Nat) (fs0 : List String) (base : String) (k : Nat)
    (calls : List (Sys × Nat)) (rs : List (Option Nat)) (s : State)
    (h : run CHUNK (fresh fs0 base k) calls = some (rs, s)) :
    (∀ p c, deref s.heap p = some c →
      0 ≤ c.next_free_offset ∧ c.next_free_offset ≤ c.size) ∧
    (∀ sys n r s1, file_malloc CHUNK sys s n = some (r, s1) →
      s1.heap.length = s.heap.length + 1 →
      ∃ c, s1.mem.currentp = some s.heap.length ∧
        deref s1.heap s.heap.length = some c ∧
        c.size = needed_chunks_of CHUNK (aligned_size_of n) * CHUNK ∧
        c.next_free_offset = aligned_size_of n ∧
        aligned_size_of n ≤ c.size) := by
  have hinv := (run_induction
    (fun s => ∀ p c, deref s.heap p = some c → c.next_free_offset ≤ c.size)
    (fun _ => True) (fun _ => True)
    (fun s sys n r s1 _ hP hf => ⟨cursor_bound_step hf hP, trivial⟩)
    calls (fresh fs0 base k) rs s
    (by intro p c hc; simp [fresh_heap, deref_nil] at hc)
    (fun _ _ => trivial) h).1
  refine ⟨fun p c hc => ⟨Nat.zero_le _, hinv p c hc⟩, ?_⟩
  intro sys n r s1 hf hlen
  rcases file_malloc_cases hf with hfail | ⟨p, c, hn, hp, hc, hle, rfl, rfl⟩ |
    ⟨base, addr, fd, heap1, hn, hg, hcap, hb, hfs, h0, hoff, hrec, hm, hl, rfl, rfl⟩
  · rw [hfail.2.1] at hlen
    omega
  · simp at hlen
  · rw [needed_mul_mod] at h0
    refine ⟨_, rfl,
      (by rw [← link_prev_length hl]; exact deref_append_self _ _), ?_, ?_, ?_⟩
    · simp [needed_mul_mod]
    · simp [Nat.mod_eq_of_lt (aligned_size_of_lt n)]
    · simp only [needed_mul_mod]
      exact chunk_size_fits CHUNK _ (aligned_size_of_lt n) h0

/-- Witness of C2: scenario S1, one request of 100 bytes. -/
theorem C2_cursor_bound_witness :
    run 4096 (fresh [] "/tmp/fm" 0) [(sys_ok 3 4096, 100)] =
      some ([some 4104], state_S1) ∧
    ((∀ p c, deref state_S1.heap p = some c →
      0 ≤ c.next_free_offset ∧ c.next_free_offset ≤ c.size) ∧
    (∀ sys n r s1, file_malloc 4096 sys state_S1 n = some (r, s1) →
      s1.heap.length = state_S1.heap.length + 1 →
      ∃ c, s1.mem.currentp = some state_S1.heap.length ∧
        deref s1.heap state_S1.heap.length = some c ∧
        c.size = needed_chunks_of 4096 (aligned_size_of n) * 4096 ∧
        c.next_free_offset = aligned_size_of n ∧
        aligned_size_of n ≤ c.size)) :=
  ⟨by decide, C2_cursor_bound 4096 [] "/tmp/fm" 0 [(sys_ok 3 4096, 100)] [some 4104]
    state_S1 (by decide)⟩

/-- C3 (back-reference integrity; the code fails it): chunks of 4096 bytes
mapped at 4096.  After `file_malloc(8)` the cursor of chunk 0 is 16.  For
`file_malloc(2 ^ 64 - 8)` the sum `requested_size + FILE_MALLOC_HEADER_SIZE`
wraps to 0, so `aligned_size = 0`: the call returns `p = 4120`, writes the
header word at `p - 8 = 4112` (offset 16) with a reference to chunk 0, and
leaves the cursor at 16.  So `p > start_addr + next_free_offset = 4112`, and the
header is at offset 16, not below the cursor. -/
theorem C3_pointer_beyond_cursor :
    aligned_size_of (2 ^ 64 - 8) = 0 ∧
    (run 4096 (fresh [] "/tmp/fm" 0) [(sys_ok 3 4096, 8), (sys_ok 3 4096, 2 ^ 64 - 8)]).map
        (fun r => (r.1, r.2.words.head?, r.2.mem.currentp,
          (deref r.2.heap 0).map (fun c => (c.start_addr, c.next_free_offset)))) =
      some ([some 4104, some 4120], some (4112, 0), some 0, some (4096, 16)) ∧
    ¬ (4120 ≤ 4096 + 16) ∧ ¬ (4112 - 4096 < 16) := by
  refine ⟨by decide, by decide, by decide, by decide⟩

/-- C4 (alignment): when every address returned by `mmap` is a multiple of the
pointer width, every pointer returned by a call of `file_malloc` in a run that
starts at `init_memory` is a multiple of `sizeof(void *)`; and in the state
reached every chunk has a cursor that is a multiple of the pointer width, so
that the next user address `start_addr + next_free_offset +
FILE_MALLOC_HEADER_SIZE` is one too. -/
theorem C4_alignment (CHUNK : Nat) (fs0 : List String) (base : String) (k : Nat)
    (calls : List (Sys × Nat)) (rs : List (Option Nat)) (s : State)
    (hbase : ∀ c ∈ calls, ∀ a, c.1.mmap_addr = some a → a % PTR_WIDTH = 0)
    (h : run CHUNK (fresh fs0 base k) calls = some (rs, s)) :
    (∀ ptr, some ptr ∈ rs → ptr % PTR_WIDTH = 0) ∧
    (∀ p c, deref s.heap p = some c →
      c.next_free_offset % PTR_WIDTH = 0 ∧
      (c.start_addr + c.next_free_offset + FILE_MALLOC_HEADER_SIZE) % PTR_WIDTH = 0) := by
  have hinv := run_induction
    (fun s => ∀ p c, deref s.heap p = some c →
      c.next_free_offset % PTR_WIDTH = 0 ∧ c.start_addr % PTR_WIDTH = 0)
    (fun r => ∀ ptr, r = some ptr → ptr % PTR_WIDTH = 0)
    (fun sys => ∀ a, sys.mmap_addr = some a → a % PTR_WIDTH = 0)
    (fun s sys n r s1 hsys hP hf => alignment_step hf hsys hP)
    calls (fresh fs0 base k) rs s
    (by intro p c hc; simp [fresh_heap, deref_nil] at hc)
    (fun c hc => hbase c hc) h
  refine ⟨fun ptr hptr => hinv.2 (some ptr) hptr ptr rfl, ?_⟩
  intro p c hc
  have := hinv.1 p c hc
  refine ⟨this.1, ?_⟩
  simp only [PTR_WIDTH, FILE_MALLOC_HEADER_SIZE] at *
  omega

/-- Witness of C4: two requests, of 100 and of 5000 bytes, with chunks of 4096
bytes mapped at 4096 and at 65536. -/
theorem C4_alignment_witness :
    (∀ c ∈ [(sys_ok 3 4096, 100), (sys_ok 4 65536, 5000)],
      ∀ a, c.1.mmap_addr = some a → a % PTR_WIDTH = 0) ∧
    run 4096 (fresh [] "/tmp/fm" 0) [(sys_ok 3 4096, 100), (sys_ok 4 65536, 5000)] =
      some ([some 4104, some 65544], state_two_chunks) ∧
    ((∀ ptr, some ptr ∈ [some 4104, some 65544] → ptr % PTR_WIDTH = 0) ∧
    (∀ p c, deref state_two_chunks.heap p = some c →
      c.next_free_offset % PTR_WIDTH = 0 ∧
      (c.start_addr + c.next_free_offset + FILE_MALLOC_HEADER_SIZE) % PTR_WIDTH = 0)) :=
  ⟨by decide, by decide,
    C4_alignment 4096 [] "/tmp/fm" 0 [(sys_ok 3 4096, 100), (sys_ok 4 65536, 5000)]
      [some 4104, some 65544] state_two_chunks (by decide) (by decide)⟩

/-- C5 (zero rejected): in every state, `file_malloc(0)` returns `NULL`, sets
`errno` to `EINVAL` and changes nothing else: the manager, the chunk records
(so every cursor and reference count, and the number of chunks), the mapped
words, the file system and the log of system calls are as before. -/
theorem C5_zero_rejected (CHUNK : Nat) (sys : Sys) (s : State) :
    ∃ s1, file_malloc CHUNK sys s 0 = some (none, s1) ∧ s1.errno = EINVAL ∧
      s1.mem = s.mem ∧ s1.heap = s.heap ∧ s1.fs = s.fs ∧ s1.words = s.words ∧
      s1.trace = s.trace :=
  ⟨{ s with errno := EINVAL }, by simp [file_malloc], rfl, rfl, rfl, rfl, rfl, rfl⟩

/-- C6 (cap enforcement; the code fails it): `max_chunks = 1`, chunks of 4096
bytes.  `file_malloc(8)` creates chunk 0, so the list holds `k = 1` chunk.
`file_malloc(2 ^ 64 - 4096)` does not fit (`must_grow`), so its success would
need a second chunk; rounding its aligned size up to the chunk size wraps to 0,
`needed_chunks = 0`, the cap test `1 + 0 > 1` lets the call pass, and
`add_file_memory` is called with size 0, where `assert(size > 0)` ends the
run: the call does not return `NULL` with `ENOMEM`. -/
theorem C6_assert_at_cap :
    (run 4096 (fresh [] "/tmp/fm" 1) [(sys_ok 3 4096, 8)]).map
        (fun r => (r.1, chunk_list r.2, must_grow r.2 (aligned_size_of (2 ^ 64 - 4096)))) =
      some ([some 4104], [0], some true) ∧
    needed_chunks_of 4096 (aligned_size_of (2 ^ 64 - 4096)) = 0 ∧
    run 4096 (fresh [] "/tmp/fm" 1)
      [(sys_ok 3 4096, 8), (sys_ok 3 4096, 2 ^ 64 - 4096)] = none := by
  refine ⟨by decide, by decide, by decide⟩

/-- C7 (as stated, fails): with `max_chunks = 2`, chunks of 4096 bytes and an
empty chunk list, `file_malloc(2 * 4096)` needs one chunk of 3 granules; chunk
creation would succeed, yet the test of line 281 adds the 3 granules to the
ordinal 0, finds `3 > 2` and the call is refused with `ENOMEM` although the
list holds no chunk at all. -/
theorem C7_refused_with_empty_list :
    chunk_list (fresh [] "/tmp/fm" 2) = [] ∧
    needed_chunks_of 4096 (aligned_size_of (2 * 4096)) = 3 ∧
    (add_file_memory (sys_ok 3 4096) (fresh [] "/tmp/fm" 2) (chunk_path "/tmp/fm" 0)
        (3 * 4096)).map (fun r => r.1) = some 0 ∧
    file_malloc 4096 (sys_ok 3 4096) (fresh [] "/tmp/fm" 2) (2 * 4096) =
      some (none, { fresh [] "/tmp/fm" 2 with errno := ENOMEM }) := by
  refine ⟨by decide, by decide, by decide, by decide⟩

/-- C7 (amended): for a call that needs a new chunk and whose chunk creation
would succeed, the call is refused for cap reasons exactly when
`max_chunks > 0` and `next_chunk_index + needed_chunks > max_chunks` (an
unsigned 64 bit sum), where `needed_chunks` counts the granules of the one
chunk to create, whatever the length of the chunk list; otherwise it creates
the chunk and returns a pointer.  With `max_chunks = 0` it is never refused. -/
theorem C7_cap_test (CHUNK : Nat) (sys : Sys) (s : State) (n : Nat) (base : String)
    (hn : n ≠ 0) (hg : must_grow s (aligned_size_of n) = some true)
    (hb : s.mem.base_path = some base) (htmp : sys.malloc_tmp_path = true)
    (hadd : (add_file_memory sys s (chunk_path base s.mem.next_chunk_index)
      ((needed_chunks_of CHUNK (aligned_size_of n) * CHUNK) % SIZE_MOD)).map
        (fun r => r.1) = some 0) :
    ((s.mem.max_chunks > 0 ∧
        (s.mem.next_chunk_index + needed_chunks_of CHUNK (aligned_size_of n)) % SIZE_MOD >
          s.mem.max_chunks) →
      file_malloc CHUNK sys s n = some (none, { s with errno := ENOMEM })) ∧
    (¬ (s.mem.max_chunks > 0 ∧
        (s.mem.next_chunk_index + needed_chunks_of CHUNK (aligned_size_of n)) % SIZE_MOD >
          s.mem.max_chunks) →
      ∃ ptr s1, file_malloc CHUNK sys s n = some (some ptr, s1) ∧
        s1.heap.length = s.heap.length + 1 ∧
        s1.mem.next_chunk_index = s.mem.next_chunk_index + 1) ∧
    (s.mem.max_chunks = 0 →
      ∃ ptr s1, file_malloc CHUNK sys s n = some (some ptr, s1)) := by
  have hsucc : ¬ (s.mem.max_chunks > 0 ∧
        (s.mem.next_chunk_index + needed_chunks_of CHUNK (aligned_size_of n)) % SIZE_MOD >
          s.mem.max_chunks) →
      ∃ ptr s1, file_malloc CHUNK sys s n = some (some ptr, s1) ∧
        s1.heap.length = s.heap.length + 1 ∧
        s1.mem.next_chunk_index = s.mem.next_chunk_index + 1 := by
    intro hcap
    cases ha : add_file_memory sys s (chunk_path base s.mem.next_chunk_index)
        ((needed_chunks_of CHUNK (aligned_size_of n) * CHUNK) % SIZE_MOD) with
    | none => simp [ha] at hadd
    | some res =>
      obtain ⟨ret, s2⟩ := res
      simp only [ha, Option.map_some', Option.some.injEq] at hadd
      subst hadd
      obtain ⟨h0, hrec, hfs, hoff, addr, heap1, hm, hl, rfl⟩ := add_file_memory_ok ha
      have hd := deref_append_self heap1
        { path := chunk_path base s.mem.next_chunk_index,
          fd := open_excl sys s.fs (chunk_path base s.mem.next_chunk_index),
          size := (needed_chunks_of CHUNK (aligned_size_of n) * CHUNK) % SIZE_MOD,
          start_addr := addr, next_free_offset := 0, ref_count := 0, nextp := none,
          prevp := s.mem.currentp }
      rw [link_prev_length hl] at hd
      simp only [file_malloc, hn, hg, if_false, hcap, hb]
      simp only [htmp, ha, Bool.not_true, Bool.false_eq_true, if_false, ne_eq,
        not_true_eq_false, file_malloc_serve, hd]
      exact ⟨_, _, rfl, by simp [link_prev_length hl], rfl⟩
  refine ⟨?_, hsucc, ?_⟩
  · intro hcap
    simp only [file_malloc, hn, hg, if_false]
    simp [hcap]
  · intro hk
    obtain ⟨ptr, s1, h1, -⟩ := hsucc (by omega)
    exact ⟨ptr, s1, h1⟩

/-- Witness of C7 (amended): the first request of 100 bytes after
`init_memory("/tmp/fm", 2)`. -/
theorem C7_cap_test_witness :
    (100 ≠ 0 ∧ must_grow (fresh [] "/tmp/fm" 2) (aligned_size_of 100) = some true ∧
      (fresh [] "/tmp/fm" 2).mem.base_path = some "/tmp/fm" ∧
      (sys_ok 3 4096).malloc_tmp_path = true ∧
      (add_file_memory (sys_ok 3 4096) (fresh [] "/tmp/fm" 2)
        (chunk_path "/tmp/fm" (fresh [] "/tmp/fm" 2).mem.next_chunk_index)
        ((needed_chunks_of 4096 (aligned_size_of 100) * 4096) % SIZE_MOD)).map
          (fun r => r.1) = some 0) ∧
    ∃ ptr s1, file_malloc 4096 (sys_ok 3 4096) (fresh [] "/tmp/fm" 2) 100 =
        some (some ptr, s1) ∧
      s1.heap.length = (fresh [] "/tmp/fm" 2).heap.length + 1 ∧
      s1.mem.next_chunk_index = (fresh [] "/tmp/fm" 2).mem.next_chunk_index + 1 :=
  ⟨by decide,
    (C7_cap_test 4096 (sys_ok 3 4096) (fresh [] "/tmp/fm" 2) 100 "/tmp/fm" (by decide)
      (by decide) (by decide) (by decide) (by decide)).2.1 (by decide)⟩

/-- C8 (failed allocation is atomic; the code fails it): after `file_malloc(8)`
the manager has chunk 0 as current chunk.  A `file_malloc(4096)` needs a new
chunk; when the `malloc` of the chunk record fails (line 98), the call returns
`NULL` with `ENOMEM`, but `mem.currentp` is now `NULL`: the chunk list reachable
from the manager is empty, while the record and the file of chunk 0 still
exist. -/
theorem C8_record_allocation_failure_drops_list :
    ∃ s1 s2 ptrs,
      run 4096 (fresh [] "/tmp/fm" 0) [(sys_ok 3 4096, 8)] = some (ptrs, s1) ∧
      file_malloc 4096 { sys_ok 3 4096 with malloc_record := false } s1 4096 =
        some (none, s2) ∧
      s2.errno = ENOMEM ∧ s1.mem.currentp = some 0 ∧ s2.mem.currentp = none ∧
      chunk_list s1 = [0] ∧ chunk_list s2 = [] ∧ s2.heap = s1.heap ∧
      s2.fs = ["/tmp/fm.0"] := by
  refine ⟨_, _, _, rfl, rfl, ?_⟩
  decide

/-- C9 (large single allocation; the code fails it): on a fresh manager without
cap and with chunks of 4096 bytes, `file_malloc(2 ^ 64 - 1)` succeeds, because
`requested_size + FILE_MALLOC_HEADER_SIZE` wraps to 7 and `aligned_size = 8`:
the one chunk has size 4096 and cursor 8, where the request of `2 ^ 64 - 1`
bytes calls for the cursor `2 ^ 64 + 8` and the size `2 ^ 64 + 4096`. -/
theorem C9_wrapped_request :
    aligned_size_of (2 ^ 64 - 1) = 8 ∧
    (file_malloc 4096 (sys_ok 3 4096) (fresh [] "/tmp/fm" 0) (2 ^ 64 - 1)).map
        (fun r => (r.1, r.2.heap.map (Option.map (fun c => (c.size, c.next_free_offset))))) =
      some (some 4104, [some (4096, 8)]) ∧
    (2 ^ 64 - 1 + FILE_MALLOC_HEADER_SIZE + 7) / 8 * 8 = 2 ^ 64 + 8 ∧
    (2 ^ 64 + 8 + 4095) / 4096 * 4096 = 2 ^ 64 + 4096 := by
  refine ⟨by decide, by decide, by decide, by decide⟩

/-- C10 (as stated, fails): with `/tmp/fm.0` present before `init_memory("/tmp/fm", 0)`,
`file_malloc(1)` fails at the exclusive `open` and returns `NULL`; after
`uninit_memory` the path `/tmp/fm.0`, of the form `{base_path}.{0}`, is still in
the file system. -/
theorem C10_existing_file_survives :
    chunk_path "/tmp/fm" 0 = "/tmp/fm.0" ∧
    ((run 4096 (fresh ["/tmp/fm.0"] "/tmp/fm" 0) [(sys_ok 3 4096, 1)]).bind
        (fun r => (uninit_memory r.2).map (fun s => (r.1, s.fs)))) =
      some ([none], ["/tmp/fm.0"]) := by
  refine ⟨by decide, by decide⟩

/-- C10 (amended): after any run of `file_malloc` calls in which no allocation
of a chunk record fails, `uninit_memory` returns and leaves the file system
exactly as it was before `init_memory`: every file created for a chunk is
gone, a path `{base_path}.{i}` is absent afterwards when it was absent before,
and over the whole life of the manager the unlinked paths are the created
paths, each unlinked as often as it was created. -/
theorem C10_teardown_restores_file_system (CHUNK : Nat) (fs0 : List String)
    (base : String) (k : Nat) (calls : List (Sys × Nat)) (rs : List (Option Nat))
    (s : State) (hrec : ∀ c ∈ calls, c.1.malloc_record = true)
    (h : run CHUNK (fresh fs0 base k) calls = some (rs, s)) :
    ∃ s1, uninit_memory s = some s1 ∧ s1.fs = fs0 ∧
      (∀ i, chunk_path base i ∉ fs0 → chunk_path base i ∉ s1.fs) ∧
      (unlinked_paths s1.trace).Perm (created_paths s1.trace) := by
  obtain ⟨l, hch, hfs, hnd, hdis, hnext, hperm⟩ := (run_induction
    (TeardownInv fs0) (fun _ => True) (fun sys => sys.malloc_record = true)
    (fun s sys n r s1 hsys hP hf => ⟨teardownInv_step hf hsys hP, trivial⟩)
    calls (fresh fs0 base k) rs s (teardownInv_fresh fs0 base k) hrec h).1
  have hvalid : ∀ p, s.mem.currentp = some p → ∃ c, deref s.heap p = some c := by
    intro p hp
    rw [hp] at hch
    cases hch with
    | cons _ c _ hc _ _ => exact ⟨c, hc⟩
  have hfw := fastfw_list_last s.heap.length hnext hvalid
  have hlen : l.length ≤ s.heap.length + 1 :=
    Nat.le_succ_of_le (hch.length_le _ hch.lt_length)
  obtain ⟨s1, h1, h2, h3, h4, h5, h6, h7, h8⟩ :=
    uninit_loop_chain l (s.heap.length + 1) s s.mem.currentp hch hlen
  have hfs1 : s1.fs = fs0 := by
    rw [h2, hfs]
    exact unlink_stack _ fs0 hnd hdis
  have e1 : created_paths (if s1.mem.base_path ≠ none then [Event.freed_base_path] else [])
      = [] := by split_ifs <;> rfl
  have e2 : unlinked_paths (if s1.mem.base_path ≠ none then [Event.freed_base_path] else [])
      = [] := by split_ifs <;> rfl
  refine ⟨{ s1 with
      mem := { s1.mem with currentp := none, next_chunk_index := 0, max_chunks := 0 },
      trace := s1.trace ++
        (if s1.mem.base_path ≠ none then [Event.freed_base_path] else []) },
    by simp only [uninit_memory, uninit_file_memories, hfw, h1], hfs1, ?_, ?_⟩
  · intro i hi
    simp only [hfs1]
    exact hi
  · simp only [created_paths_append, unlinked_paths_append, h7, h8, e1, e2,
      List.append_nil]
    exact hperm.symm

/-- Witness of C10 (amended): the run that creates `/tmp/fm.0` and `/tmp/fm.1`. -/
theorem C10_teardown_restores_file_system_witness :
    (∀ c ∈ [(sys_ok 3 4096, 100), (sys_ok 4 65536, 5000)], c.1.malloc_record = true) ∧
    run 4096 (fresh [] "/tmp/fm" 0) [(sys_ok 3 4096, 100), (sys_ok 4 65536, 5000)] =
      some ([some 4104, some 65544], state_two_chunks) ∧
    ∃ s1, uninit_memory state_two_chunks = some s1 ∧ s1.fs = [] ∧
      (∀ i, chunk_path "/tmp/fm" i ∉ ([] : List String) → chunk_path "/tmp/fm" i ∉ s1.fs) ∧
      (unlinked_paths s1.trace).Perm (created_paths s1.trace) :=
  ⟨by decide, by decide,
    C10_teardown_restores_file_system 4096 [] "/tmp/fm" 0
      [(sys_ok 3 4096, 100), (sys_ok 4 65536, 5000)] [some 4104, some 65544]
      state_two_chunks (by decide) (by decide)⟩

/-- C11 (teardown resets and is idempotent; the code fails it): in the state of
scenario S1, `uninit_memory` releases chunk 0 and frees the copy of the base
path, but leaves `mem.base_path` pointing to the freed copy (the other three
fields are reset).  A second `uninit_memory` releases no chunk, finds
`mem.base_path != NULL` and frees the copy a second time: the state after two
teardowns is not the state after one. -/
theorem C11_second_teardown_frees_base_path_again :
    ∃ s1 s2, uninit_memory state_S1 = some s1 ∧ uninit_memory s1 = some s2 ∧
      s1.mem = { base_path := some "/tmp/fm", currentp := none, next_chunk_index := 0,
                 max_chunks := 0 } ∧
      s1.trace = state_S1.trace ++
        [Event.unmapped 4096 4096, Event.closed 3, Event.unlinked "/tmp/fm.0",
          Event.freed 0, Event.freed_base_path] ∧
      s2.trace = s1.trace ++ [Event.freed_base_path] ∧ s2 ≠ s1 := by
  refine ⟨_, _, rfl, rfl, ?_⟩
  decide

/-- C13 (`file_free` is a no-op and no space is reused; the code fails the
second part): chunks of 4096 bytes mapped at 4096.  `file_malloc(8)` returns
4104 and occupies the offsets `[0, 16)` of chunk 0; `file_free(4104)` changes
nothing; `file_malloc(2 ^ 64 - 16)` returns 4120 and, by the wrap of line 315,
moves the cursor back from 16 to 8; `file_free(4120)` changes nothing;
`file_malloc(8)` then returns 4112 with its header word written at 4104: the
space of the first allocation is used again before any teardown. -/
theorem C13_space_reused_before_teardown :
    (run_calls 4096 (fresh [] "/tmp/fm" 0)
        [Call.malloc (sys_ok 3 4096) 8, Call.free (some 4104)]).map
        (fun r => (r.1, cursor_of r.2 0)) = some ([some 4104], some 16) ∧
    (run_calls 4096 (fresh [] "/tmp/fm" 0)
        [Call.malloc (sys_ok 3 4096) 8, Call.free (some 4104),
          Call.malloc (sys_ok 3 4096) (2 ^ 64 - 16), Call.free (some 4120)]).map
        (fun r => (r.1, cursor_of r.2 0)) = some ([some 4104, some 4120], some 8) ∧
    (run_calls 4096 (fresh [] "/tmp/fm" 0)
        [Call.malloc (sys_ok 3 4096) 8, Call.free (some 4104),
          Call.malloc (sys_ok 3 4096) (2 ^ 64 - 16), Call.free (some 4120),
          Call.malloc (sys_ok 3 4096) 8]).map
        (fun r => (r.1, r.2.words.head?, cursor_of r.2 0, r.2.heap.length)) =
      some ([some 4104, some 4120, some 4112], some (4104, 0), some 24, 1) ∧
    file_free (fresh [] "/tmp/fm" 0) (some 4104) = fresh [] "/tmp/fm" 0 := by
  refine ⟨by rfl, by rfl, by rfl, rfl⟩

/-- C14 (postcondition of a successful call; the code fails it): chunks of 4096
bytes mapped at 4096.  After `file_malloc(8)` the current chunk has cursor
`o = 16`.  `file_malloc(2 ^ 64 - 16)` succeeds from that chunk with
`aligned_size = 2 ^ 64 - 8` and returns `start_addr + o + 8 = 4120`, but the
cursor becomes 8, not `o + aligned_size = 2 ^ 64 + 8`. -/
theorem C14_cursor_not_advanced_by_aligned_size :
    aligned_size_of (2 ^ 64 - 16) = 2 ^ 64 - 8 ∧
    (run 4096 (fresh [] "/tmp/fm" 0) [(sys_ok 3 4096, 8)]).map
        (fun r => (r.2.mem.currentp, cursor_of r.2 0)) = some (some 0, some 16) ∧
    (run 4096 (fresh [] "/tmp/fm" 0)
        [(sys_ok 3 4096, 8), (sys_ok 3 4096, 2 ^ 64 - 16)]).map
        (fun r => (r.1, r.2.mem.currentp, cursor_of r.2 0)) =
      some ([some 4104, some (4096 + 16 + 8)], some 0, some 8) ∧
    8 ≠ 16 + (2 ^ 64 - 8) := by
  refine ⟨by decide, by decide, by decide, by decide⟩

/-- C15 (grow or reuse; the code fails it): chunks of 4096 bytes.  After
`file_malloc(8)` the current chunk has cursor 16 and size 4096.  For
`file_malloc(2 ^ 64 - 16)` the sum `next_free_offset + aligned_size` is
`2 ^ 64 + 8 > 4096` as integers, so a new chunk is called for; the code compares
the wrapped sum 8 and serves the request from the current chunk: the arena
still holds one record and `next_chunk_index` is still 1. -/
theorem C15_reuse_although_sum_exceeds_size :
    (run 4096 (fresh [] "/tmp/fm" 0) [(sys_ok 3 4096, 8)]).map
        (fun r => ((deref r.2.heap 0).map (fun c => (c.next_free_offset, c.size)),
          r.2.heap.length, r.2.mem.next_chunk_index,
          must_grow r.2 (aligned_size_of (2 ^ 64 - 16)))) =
      some (some (16, 4096), 1, 1, some false) ∧
    16 + aligned_size_of (2 ^ 64 - 16) > 4096 ∧
    (run 4096 (fresh [] "/tmp/fm" 0)
        [(sys_ok 3 4096, 8), (sys_ok 3 4096, 2 ^ 64 - 16)]).map
        (fun r => (r.1, r.2.heap.length, r.2.mem.next_chunk_index, chunk_list r.2)) =
      some ([some 4104, some 4120], 1, 1, [0]) := by
  refine ⟨by decide, by decide, by decide⟩

/-- C16 (chunk count; the code fails it): after `file_malloc(8)` one chunk
exists.  A `file_malloc(4096)` whose allocation of the chunk record fails
returns `NULL` and leaves `mem.currentp = NULL`: `next_chunk_index` is 1, one
chunk has been created, and the chunk list reachable from `mem.currentp` is
empty. -/
theorem C16_index_differs_from_list_length :
    (run 4096 (fresh [] "/tmp/fm" 0)
        [(sys_ok 3 4096, 8), (sys_record_fails 3 4096, 4096)]).map
        (fun r => (r.1, r.2.mem.next_chunk_index, r.2.heap.length,
          created_paths r.2.trace, r.2.mem.currentp, (chunk_list r.2).length)) =
      some ([some 4104, none], 1, 1, ["/tmp/fm.0"], none, 0) := by
  rfl

/-- C17 (chunk list order; the code fails it): after `file_malloc(8)`, a
`file_malloc(4096)` whose allocation of the chunk record fails, and another
`file_malloc(8)`, two chunks are live, but the second was created with
`prevp = NULL`: following `prevp` from `mem.currentp` visits chunk 1 only, and
`uninit_memory` releases chunk 1 only, leaving the record and the file of
chunk 0. -/
theorem C17_walk_misses_live_chunk :
    (run 4096 (fresh [] "/tmp/fm" 0)
        [(sys_ok 3 4096, 8), (sys_record_fails 3 4096, 4096),
          (sys_ok 4 8192, 8)]).map
        (fun r => (r.1, r.2.mem.currentp, chunk_list r.2,
          r.2.heap.map (Option.map (fun c => (c.path, c.prevp, c.nextp))))) =
      some ([some 4104, none, some 8200], some 1, [1],
        [some ("/tmp/fm.0", none, none), some ("/tmp/fm.1", none, none)]) ∧
    ((run 4096 (fresh [] "/tmp/fm" 0)
        [(sys_ok 3 4096, 8), (sys_record_fails 3 4096, 4096),
          (sys_ok 4 8192, 8)]).bind (fun r => uninit_memory r.2)).map
        (fun s => (s.fs, s.heap.map Option.isSome, unlinked_paths s.trace)) =
      some (["/tmp/fm.0"], [true, false], ["/tmp/fm.1"]) := by
  refine ⟨by rfl, by decide⟩

/-- C18 (chunk size; the code fails it): on a fresh manager with chunks of 4096
bytes, `file_malloc(2 ^ 64 - 8)` has `aligned_size = 0` and
`needed_chunks = 0`; with no current chunk it calls `add_file_memory` with
size 0, which violates `assert(size > 0)` and ends the run. -/
theorem C18_size_zero_reaches_add_file_memory :
    aligned_size_of (2 ^ 64 - 8) = 0 ∧
    needed_chunks_of 4096 (aligned_size_of (2 ^ 64 - 8)) * 4096 % SIZE_MOD = 0 ∧
    must_grow (fresh [] "/tmp/fm" 0) (aligned_size_of (2 ^ 64 - 8)) = some true ∧
    add_file_memory (sys_ok 3 4096) (fresh [] "/tmp/fm" 0) (chunk_path "/tmp/fm" 0) 0 = none ∧
    file_malloc 4096 (sys_ok 3 4096) (fresh [] "/tmp/fm" 0) (2 ^ 64 - 8) = none := by
  refine ⟨by decide, by decide, by decide, by decide, by decide⟩

/-- C19 (scenario S2): with chunks of 64 bytes, after `init_memory("/tmp/fm", 0)`
and four calls `file_malloc(16)`, all four return a pointer; two chunks exist,
`/tmp/fm.0` and `/tmp/fm.1`, each of size 64 with cursor 48 and reference count
2, that is `4 * 24 = 96` bytes in total; the first two pointers are at the
offsets 8 and 32 of chunk 0, the last two at the offsets 8 and 32 of chunk 1;
and `next_chunk_index = 2`. -/
theorem C19_sequential_fill :
    aligned_size_of 16 = 24 ∧
    run 64 (fresh [] "/tmp/fm" 0)
        [(sys_ok 3 4096, 16), (sys_ok 3 4096, 16), (sys_ok 4 8192, 16), (sys_ok 4 8192, 16)] =
      some ([some (4096 + 8), some (4096 + 32), some (8192 + 8), some (8192 + 32)],
        state_S2) ∧
    state_S2.heap.map (Option.map (fun c =>
        (c.path, c.size, c.start_addr, c.next_free_offset, c.ref_count))) =
      [some ("/tmp/fm.0", 64, 4096, 48, 2), some ("/tmp/fm.1", 64, 8192, 48, 2)] ∧
    48 + 48 = 4 * aligned_size_of 16 ∧
    state_S2.mem.next_chunk_index = 2 ∧ chunk_list state_S2 = [1, 0] ∧
    state_S2.fs = ["/tmp/fm.1", "/tmp/fm.0"] := by
  refine ⟨by decide, by decide, by decide, by decide, by decide, by decide, by decide⟩

/-- C20 (user region containment; the code fails it): on a fresh manager with
chunks of 4096 bytes mapped at 4096, `file_malloc(2 ^ 64 - 1)` succeeds and
returns `p = 4104`; `aligned_size` is 8, less than `n + 8`, the cursor becomes 8
and the chunk has 4096 bytes, so the `n` bytes from `p` on end far beyond
`start_addr + next_free_offset` and beyond the mapping. -/
theorem C20_user_bytes_outside_chunk :
    aligned_size_of (2 ^ 64 - 1) = 8 ∧
    (file_malloc 4096 (sys_ok 3 4096) (fresh [] "/tmp/fm" 0) (2 ^ 64 - 1)).map
        (fun r => (r.1, (deref r.2.heap 0).map (fun c =>
          (c.start_addr, c.next_free_offset, c.size)))) =
      some (some 4104, some (4096, 8, 4096)) ∧
    ¬ (aligned_size_of (2 ^ 64 - 1) ≥ 2 ^ 64 - 1 + FILE_MALLOC_HEADER_SIZE) ∧
    ¬ (4104 + (2 ^ 64 - 1) ≤ 4096 + 8) ∧ ¬ (4104 + (2 ^ 64 - 1) ≤ 4096 + 4096) := by
  refine ⟨by decide, by decide, by decide, by decide, by decide⟩

/-- C12 (chunk naming and ordinals): with `get_num_digits` the exact number of
decimal digits, in every state reached from `init_memory(base, k)` by calls of
`file_malloc`: one record was created for each ordinal handed out; the `j`-th
created chunk (the record at index `j`, counting from 0) has the path
`base ++ "." ++ j` in decimal, so the paths carry the ordinals 0, 1, 2, ... in
creation order; the paths of two different chunks differ; and a call that
returns `NULL` leaves `next_chunk_index` as it was, so that a failed creation
consumes no ordinal. -/
theorem C12_chunk_naming (CHUNK : Nat) (fs0 : List String) (base : String) (k : Nat)
    (calls : List (Sys × Nat)) (rs : List (Option Nat)) (s : State)
    (h : run CHUNK (fresh fs0 base k) calls = some (rs, s)) :
    s.heap.length = s.mem.next_chunk_index ∧
    (∀ j, j < s.mem.next_chunk_index →
      ∃ c, deref s.heap j = some c ∧ c.path = base ++ "." ++ toString j) ∧
    (∀ i j ci cj, deref s.heap i = some ci → deref s.heap j = some cj → i ≠ j →
      ci.path ≠ cj.path) ∧
    (∀ sys n s1, file_malloc CHUNK sys s n = some (none, s1) →
      s1.mem.next_chunk_index = s.mem.next_chunk_index ∧ s1.heap = s.heap) ∧
    (∀ sys n ptr s1, file_malloc CHUNK sys s n = some (some ptr, s1) →
      s1.heap.length = s.heap.length + 1 →
      ∃ c, deref s1.heap s.mem.next_chunk_index = some c ∧
        c.path = base ++ "." ++ toString s.mem.next_chunk_index ∧
        s1.mem.next_chunk_index = s.mem.next_chunk_index + 1) := by
  have hinv : NameInv base s := (run_induction (NameInv base) (fun _ => True)
    (fun _ => True) (fun s sys n r s1 _ hP hf => ⟨nameInv_step hf hP, trivial⟩)
    calls (fresh fs0 base k) rs s (nameInv_fresh fs0 base k) (fun _ _ => trivial) h).1
  obtain ⟨hbase, hlen, hrec, hdist⟩ := hinv
  refine ⟨hlen, ?_, hdist, ?_, ?_⟩
  · intro j hj
    obtain ⟨c, hc, hp, -⟩ := hrec j (by rw [hlen]; exact hj)
    exact ⟨c, hc, by rw [hp, chunk_path_eq]⟩
  · intro sys n s1 hf
    rcases file_malloc_cases hf with hfail | ⟨p, c, -, -, -, -, hr, -⟩ |
      ⟨base2, addr, fd, heap1, -, -, -, -, -, -, -, -, -, -, hr, -⟩
    · exact ⟨hfail.2.2.2.2.2.1, hfail.2.1⟩
    · simp at hr
    · simp at hr
  · intro sys n ptr s1 hf hgrow
    obtain ⟨hbase1, hlen1, hrec1, -⟩ := nameInv_step hf ⟨hbase, hlen, hrec, hdist⟩
    obtain ⟨c, hc, hp, -⟩ := hrec1 s.heap.length (by omega)
    rw [← hlen]
    exact ⟨c, hc, by rw [hp, chunk_path_eq], by omega⟩

/-- Witness of C12: the run that creates `/tmp/fm.0` and `/tmp/fm.1`. -/
theorem C12_chunk_naming_witness :
    run 4096 (fresh [] "/tmp/fm" 0) [(sys_ok 3 4096, 100), (sys_ok 4 65536, 5000)] =
      some ([some 4104, some 65544], state_two_chunks) ∧
    (state_two_chunks.heap.length = state_two_chunks.mem.next_chunk_index ∧
    (∀ j, j < state_two_chunks.mem.next_chunk_index →
      ∃ c, deref state_two_chunks.heap j = some c ∧ c.path = "/tmp/fm" ++ "." ++ toString j) ∧
    (∀ i j ci cj, deref state_two_chunks.heap i = some ci →
      deref state_two_chunks.heap j = some cj → i ≠ j → ci.path ≠ cj.path) ∧
    (∀ sys n s1, file_malloc 4096 sys state_two_chunks n = some (none, s1) →
      s1.mem.next_chunk_index = state_two_chunks.mem.next_chunk_index ∧
      s1.heap = state_two_chunks.heap) ∧
    (∀ sys n ptr s1, file_malloc 4096 sys state_two_chunks n = some (some ptr, s1) →
      s1.heap.length = state_two_chunks.heap.length + 1 →
      ∃ c, deref s1.heap state_two_chunks.mem.next_chunk_index = some c ∧
        c.path = "/tmp/fm" ++ "." ++ toString state_two_chunks.mem.next_chunk_index ∧
        s1.mem.next_chunk_index = state_two_chunks.mem.next_chunk_index + 1)) :=
  ⟨by decide, C12_chunk_naming 4096 [] "/tmp/fm" 0
    [(sys_ok 3 4096, 100), (sys_ok 4 65536, 5000)] [some 4104, some 65544]
    state_two_chunks (by decide)⟩

end FileMemory
